import Mathlib

/-!
Verification of the MITRE ATT&CK STIX extraction engine
(`scripts/extract_mitre_data.py`, with a small model of the older
`scripts/extract_mitre_data_new.py` relationship resolver).

The Python scripts operate on parsed JSON.  `JVal` is the JSON value space;
a STIX object is a JSON dictionary, modelled as an association list
(`Obj`).  Python dictionaries are modelled as association lists with
insertion order and unique keys (`dictGet`/`dictInsert`/`dictAppend`/
`dictSetAdd`); Python sets as duplicate-free lists (`setAdd`); `sorted` on
strings as a stable merge sort under the lexicographic order (which agrees
with Python's code-point order for these inputs).
-/

namespace Mitre

/-- JSON values. -/
inductive JVal where
  | str : String → JVal
  | bool : Bool → JVal
  | num : Int → JVal
  | list : List JVal → JVal
  | dict : List (String × JVal) → JVal
  | null : JVal

/-- A STIX object: a JSON dictionary. -/
abbrev Obj := List (String × JVal)

/-- Python `o.get(k)`: first binding of `k` (Python dicts have unique keys). -/
def jget : Obj → String → Option JVal
  | [], _ => none
  | (k', v) :: rest, k => if k' = k then some v else jget rest k

/-- Python truthiness of a JSON value. -/
def jtruthy : JVal → Bool
  | JVal.str s => s ≠ ""
  | JVal.bool b => b
  | JVal.num n => n ≠ 0
  | JVal.list l => !l.isEmpty
  | JVal.dict d => !d.isEmpty
  | JVal.null => false

/-- Python `a or b` for an optional value `a` (absent field = `None`). -/
def pyOr (a : Option JVal) (b : JVal) : JVal :=
  match a with
  | some v => if jtruthy v then v else b
  | none => b

/-- The string content of a JSON value.  Where the script stores a
    non-string value into a string-typed output field the model collapses
    it to `""`; no claim depends on the content of such display fields. -/
def asStr : JVal → String
  | JVal.str s => s
  | _ => ""

/-- Python `o.get(k) or ""` coerced to a string (used for `name`/`description`). -/
def getStrOrEmpty (o : Obj) (k : String) : String :=
  asStr (pyOr (jget o k) (JVal.str ""))

/-- Python `o.get("id")` (absent = `None` = `null`). -/
def jvalId (o : Obj) : JVal := (jget o "id").getD JVal.null

/-- Is `x` the JSON string `s`?  (Python `o.get(k) == s` for a string `s`.) -/
def isStrVal (x : Option JVal) (s : String) : Bool :=
  match x with
  | some (JVal.str t) => t = s
  | _ => false

/-- Lexicographic comparison of code-point sequences: exactly Python's
    `<=` on strings. -/
def charLe : List Char → List Char → Bool
  | [], _ => true
  | _ :: _, [] => false
  | a :: as, b :: bs => if a < b then true else if b < a then false else charLe as bs

/-- Python `a <= b` on strings. -/
def strLe (a b : String) : Prop := charLe a.data b.data = true

instance : DecidableRel strLe := fun a b => by
  unfold strLe
  infer_instance

/-- Is the first sequence a prefix of the second? -/
def charPrefixOf : List Char → List Char → Bool
  | [], _ => true
  | _ :: _, [] => false
  | a :: as, b :: bs => a = b && charPrefixOf as bs

/-- Python `s.startswith(p)` as a code-point prefix test. -/
def strStartsWith (s p : String) : Bool :=
  charPrefixOf p.data s.data

/-- The predicate `_is_active(obj)`: not revoked and not deprecated (flags default to
    `False` when absent). -/
def is_active (o : Obj) : Bool :=
  !jtruthy ((jget o "revoked").getD (JVal.bool false)) &&
  !jtruthy ((jget o "x_mitre_deprecated").getD (JVal.bool false))

/-- The predicate `_in_domain(obj, domain)`: `domain ∈ obj.get("x_mitre_domains", [])`,
    requiring the field to be a list. -/
def in_domain (o : Obj) (d : String) : Bool :=
  match jget o "x_mitre_domains" with
  | some (JVal.list ds) => ds.any (fun v => match v with
      | JVal.str s => s = d
      | _ => false)
  | _ => false

/-- Scan of `external_references`: the first dict entry whose
    `source_name` is `"mitre-attack"`, whose `external_id` is a string and
    (when a non-empty required prefix is given) starts with that prefix. -/
def findExtId : List JVal → Option String → Option String
  | [], _ => none
  | JVal.dict ref :: rest, pfx =>
      if isStrVal (jget ref "source_name") "mitre-attack" then
        match jget ref "external_id" with
        | some (JVal.str eid) =>
            (match pfx with
             | none => some eid
             | some p =>
                if p = "" then some eid
                else if strStartsWith eid p then some eid
                else findExtId rest pfx)
        | _ => findExtId rest pfx
      else findExtId rest pfx
  | _ :: rest, pfx => findExtId rest pfx

/-- The helper `_get_attack_external_id(obj, prefix)`. -/
def get_attack_external_id (o : Obj) (pfx : Option String) : Option String :=
  match jget o "external_references" with
  | some (JVal.list refs) => findExtId refs pfx
  | _ => none

/-- Python `x or fallback` on an optional string result. -/
def orElseStr (x : Option String) (fb : String) : String :=
  match x with
  | some s => if s = "" then fb else s
  | none => fb

/-- Python dict lookup on an association list. -/
def dictGet : List (String × α) → String → Option α
  | [], _ => none
  | (k', v) :: rest, k => if k' = k then some v else dictGet rest k

/-- Python dict assignment `m[k] = v`: replace in place, else append. -/
def dictInsert : List (String × α) → String → α → List (String × α)
  | [], k, v => [(k, v)]
  | (k', v') :: rest, k, v =>
      if k' = k then (k, v) :: rest else (k', v') :: dictInsert rest k v

/-- Python `m.setdefault(k, []).append(v)`. -/
def dictAppend : List (String × List β) → String → β → List (String × List β)
  | [], k, v => [(k, [v])]
  | (k', l) :: rest, k, v =>
      if k' = k then (k, l ++ [v]) :: rest else (k', l) :: dictAppend rest k v

/-- Python set insertion on a duplicate-free list. -/
def setAdd (s : List String) (x : String) : List String :=
  if x ∈ s then s else s ++ [x]

/-- Python `m.setdefault(k, set()).add(v)`. -/
def dictSetAdd : List (String × List String) → String → String → List (String × List String)
  | [], k, v => [(k, [v])]
  | (k', l) :: rest, k, v =>
      if k' = k then (k, setAdd l v) :: rest else (k', l) :: dictSetAdd rest k v

/-- Keys of an association list are pairwise distinct (every Python dict
    satisfies this). -/
def NodupKeys (m : List (String × α)) : Prop := (m.map Prod.fst).Nodup

theorem charLe_trans : ∀ as bs cs : List Char,
    charLe as bs = true → charLe bs cs = true → charLe as cs = true := by
  intro as
  induction as with
  | nil => intro bs cs _ _; rfl
  | cons a as ih =>
    intro bs cs h1 h2
    cases bs with
    | nil => simp [charLe] at h1
    | cons b bs =>
      cases cs with
      | nil => simp [charLe] at h2
      | cons c cs =>
        unfold charLe at h1 h2 ⊢
        rcases lt_trichotomy a b with hab | hab | hab
        · rcases lt_trichotomy b c with hbc | hbc | hbc
          · rw [if_pos (lt_trans hab hbc)]
          · rw [← hbc, if_pos hab]
          · rw [if_neg (lt_asymm hbc), if_pos hbc] at h2
            cases h2
        · subst hab
          rcases lt_trichotomy a c with hac | hac | hac
          · rw [if_pos hac]
          · subst hac
            rw [if_neg (lt_irrefl a), if_neg (lt_irrefl a)] at h1 h2 ⊢
            exact ih _ _ h1 h2
          · rw [if_neg (lt_asymm hac), if_pos hac] at h2
            cases h2
        · rw [if_neg (lt_asymm hab), if_pos hab] at h1
          cases h1

theorem charLe_total : ∀ as bs : List Char, charLe as bs = true ∨ charLe bs as = true := by
  intro as
  induction as with
  | nil => intro bs; exact Or.inl rfl
  | cons a as ih =>
    intro bs
    cases bs with
    | nil => exact Or.inr rfl
    | cons b bs =>
      unfold charLe
      rcases lt_trichotomy a b with hab | hab | hab
      · exact Or.inl (by rw [if_pos hab])
      · subst hab
        rcases ih bs with h | h
        · exact Or.inl (by rw [if_neg (lt_irrefl a), if_neg (lt_irrefl a)]; exact h)
        · exact Or.inr (by rw [if_neg (lt_irrefl a), if_neg (lt_irrefl a)]; exact h)
      · exact Or.inr (by rw [if_pos hab])

theorem charLe_antisymm : ∀ as bs : List Char,
    charLe as bs = true → charLe bs as = true → as = bs := by
  intro as
  induction as with
  | nil =>
    intro bs _ h2
    cases bs with
    | nil => rfl
    | cons b bs => simp [charLe] at h2
  | cons a as ih =>
    intro bs h1 h2
    cases bs with
    | nil => simp [charLe] at h1
    | cons b bs =>
      unfold charLe at h1 h2
      rcases lt_trichotomy a b with hab | hab | hab
      · rw [if_neg (lt_asymm hab), if_pos hab] at h2
        cases h2
      · subst hab
        rw [if_neg (lt_irrefl a), if_neg (lt_irrefl a)] at h1 h2
        rw [ih bs h1 h2]
      · rw [if_neg (lt_asymm hab), if_pos hab] at h1
        cases h1

instance : IsTrans String strLe := ⟨fun _ _ _ => charLe_trans _ _ _⟩

instance : IsTotal String strLe := ⟨fun a b => charLe_total a.data b.data⟩

instance : IsAntisymm String strLe :=
  ⟨fun a b h1 h2 => by
    have h := charLe_antisymm a.data b.data h1 h2
    cases a
    cases b
    exact congrArg String.mk h⟩

/-- Python `sorted` on strings (stable, lexicographic by code point;
    insertion sort is stable, so it computes exactly Python's result). -/
def sortList (l : List String) : List String :=
  List.insertionSort strLe l

/-- Python `sorted(set(xs))`. -/
def pySortedSet (xs : List String) : List String :=
  sortList (xs.foldl setAdd [])

/- ---------------------------------------------------------------------
Output entities (the records built by `extract_mitre_data`).
--------------------------------------------------------------------- -/

structure Tactic where
  id : String
  name : String
  description : String
deriving DecidableEq

structure Asset where
  id : String
  name : String
  description : String
  domain : String
deriving DecidableEq

structure DataComponent where
  id : String
  name : String
  description : String
  dataSource : String
deriving DecidableEq

/-- A technique record; `platforms` is passed through from the raw JSON
    list unchanged, so its elements stay JSON values. -/
structure Technique where
  id : String
  name : String
  description : String
  tactics : List String
  detectionStrategyIds : List String
  platforms : List JVal
  isSubtechnique : Bool

structure Analytic where
  id : String
  name : String
  description : String
  pseudocode : String
  dataComponents : List String
deriving DecidableEq

structure DetectionStrategy where
  id : String
  name : String
  description : String
  techniques : List String
  analytics : List Analytic
  dataComponentRefs : List String
deriving DecidableEq

structure ExtractResult where
  assets : List Asset
  dataComponents : List DataComponent
  detectionStrategies : List DetectionStrategy
  techniques : List Technique
  tactics : List Tactic

/- ---------------------------------------------------------------------
First pass: typed extractors (lines 142-245 of extract_mitre_data.py).
--------------------------------------------------------------------- -/

/-- Tactic record (lines 149-155). -/
def tacticRecord (o : Obj) : Tactic :=
  { id := asStr (pyOr (jget o "x_mitre_shortname") (jvalId o))
    name := getStrOrEmpty o "name"
    description := getStrOrEmpty o "description" }

/-- Asset record (lines 159-166). -/
def assetRecord (d : String) (o : Obj) : Asset :=
  { id := asStr (jvalId o)
    name := getStrOrEmpty o "name"
    description := getStrOrEmpty o "description"
    domain := d }

/-- Names of the entries of `x_mitre_log_sources` (lines 175-180). -/
def logSourceNames (o : Obj) : List String :=
  match jget o "x_mitre_log_sources" with
  | some (JVal.list ls) => ls.filterMap (fun e => match e with
      | JVal.dict entry =>
          (match jget entry "name" with
           | some (JVal.str s) => some s
           | _ => none)
      | _ => none)
  | _ => []

/-- Data-component record (lines 183-190). -/
def dcRecord (o : Obj) : DataComponent :=
  { id := asStr (jvalId o)
    name := getStrOrEmpty o "name"
    description := getStrOrEmpty o "description"
    dataSource := String.intercalate ", " (pySortedSet (logSourceNames o)) }

/-- Tactic shortnames from `kill_chain_phases` (lines 203-212). -/
def techTactics (o : Obj) : List String :=
  match jget o "kill_chain_phases" with
  | some (JVal.list kcp) => kcp.filterMap (fun phase => match phase with
      | JVal.dict ph =>
          (match jget ph "kill_chain_name", jget ph "phase_name" with
           | some (JVal.str kcn), some (JVal.str pn) =>
              if kcn = "mitre-attack" ∨ kcn = "mitre-ics-attack" then some pn
              else none
           | _, _ => none)
      | _ => none)
  | _ => []

/-- Technique record (lines 214-233): `platforms` defaults to `[]` and
    `isSubtechnique` to `false` when the raw field is absent or not of the
    expected type; `detectionStrategyIds` starts empty. -/
def techniqueRecord (o : Obj) (tid : String) : Technique :=
  { id := tid
    name := getStrOrEmpty o "name"
    description := getStrOrEmpty o "description"
    tactics := techTactics o
    detectionStrategyIds := []
    platforms := (match jget o "x_mitre_platforms" with
      | some (JVal.list l) => l
      | _ => [])
    isSubtechnique := (match jget o "x_mitre_is_subtechnique" with
      | some (JVal.bool b) => b
      | _ => false) }

/-- The technique produced by one object of the bundle, if any
    (lines 193-233): an active, in-domain `attack-pattern` carrying a
    truthy `mitre-attack` external id with prefix `T`. -/
def acceptTech (d : String) (o : Obj) : Option Technique :=
  match jget o "type" with
  | some (JVal.str t) =>
      if t = "attack-pattern" && is_active o && in_domain o d then
        match get_attack_external_id o (some "T") with
        | some tid => if tid = "" then none else some (techniqueRecord o tid)
        | none => none
      else none
  | _ => none

structure Pass1State where
  tactics : List Tactic
  assets : List Asset
  dataComponents : List DataComponent
  techniques : List Technique
  techStixToTid : List (String × String)
  tidToTechIndex : List (String × Nat)
  dcStixIds : List String
  analyticsByStix : List (String × Obj)
  dsByStix : List (String × Obj)

def pass1Init : Pass1State :=
  { tactics := [], assets := [], dataComponents := [], techniques := []
    techStixToTid := [], tidToTechIndex := [], dcStixIds := []
    analyticsByStix := [], dsByStix := [] }

/-- Data-component bookkeeping (lines 169-190): record the stix id when it
    is a string, and append the record. -/
def pass1AddDC (st : Pass1State) (o : Obj) : Pass1State :=
  { st with
    dcStixIds := (match jget o "id" with
      | some (JVal.str s) => setAdd st.dcStixIds s
      | _ => st.dcStixIds)
    dataComponents := st.dataComponents ++ [dcRecord o] }

/-- Technique bookkeeping (lines 198-233): record stix-id→tid, record
    tid→index (the index the new record is about to occupy, overwriting
    any earlier entry for the same tid), and append the record. -/
def pass1AddTech (st : Pass1State) (o : Obj) (tid : String) : Pass1State :=
  { st with
    techStixToTid := (match jget o "id" with
      | some (JVal.str s) => dictInsert st.techStixToTid s tid
      | _ => st.techStixToTid)
    tidToTechIndex := dictInsert st.tidToTechIndex tid st.techniques.length
    techniques := st.techniques ++ [techniqueRecord o tid] }

/-- Analytic side-map entry (lines 236-239). -/
def pass1AddAnalytic (st : Pass1State) (o : Obj) : Pass1State :=
  { st with
    analyticsByStix := (match jget o "id" with
      | some (JVal.str s) => dictInsert st.analyticsByStix s o
      | _ => st.analyticsByStix) }

/-- Detection-strategy side-map entry (lines 242-245). -/
def pass1AddDS (st : Pass1State) (o : Obj) : Pass1State :=
  { st with
    dsByStix := (match jget o "id" with
      | some (JVal.str s) => dictInsert st.dsByStix s o
      | _ => st.dsByStix) }

/-- One iteration of the first pass (lines 142-245).  The type guards are
    mutually exclusive, so the source's independent `if` statements are an
    `if`/`else` chain. -/
def pass1Step (d : String) (st : Pass1State) (o : Obj) : Pass1State :=
  match jget o "type" with
  | some (JVal.str t) =>
      if t = "x-mitre-tactic" && is_active o && in_domain o d then
        { st with tactics := st.tactics ++ [tacticRecord o] }
      else if t = "x-mitre-asset" && is_active o && in_domain o d then
        { st with assets := st.assets ++ [assetRecord d o] }
      else if t = "x-mitre-data-component" && is_active o && in_domain o d then
        pass1AddDC st o
      else if t = "attack-pattern" && is_active o && in_domain o d then
        match get_attack_external_id o (some "T") with
        | some tid => if tid = "" then st else pass1AddTech st o tid
        | none => st
      else if t = "x-mitre-analytic" && is_active o && in_domain o d then
        pass1AddAnalytic st o
      else if t = "x-mitre-detection-strategy" && is_active o && in_domain o d then
        pass1AddDS st o
      else st
  | _ => st

def runPass1 (d : String) (objs : List Obj) : Pass1State :=
  objs.foldl (pass1Step d) pass1Init

/-- The object index (lines 120-124): id → raw object, keyed on objects
    exposing a string id, later objects overwriting earlier ones. -/
def buildById (objs : List Obj) : List (String × Obj) :=
  objs.foldl (fun m o => match jget o "id" with
    | some (JVal.str s) => dictInsert m s o
    | _ => m) []

/- ---------------------------------------------------------------------
Second pass: detects relationships (lines 252-285).
--------------------------------------------------------------------- -/

/-- Detection-strategy output id: the `DET`-prefixed external id, falling
    back to the stix id (lines 283 and 291). -/
def dsIdOf (dsObj : Obj) (dsStix : String) : String :=
  orElseStr (get_attack_external_id dsObj (some "DET")) dsStix

structure Pass2State where
  dsToTechStix : List (String × List String)
  techTidToDsIds : List (String × List String)

def pass2Init : Pass2State := { dsToTechStix := [], techTidToDsIds := [] }

/-- One iteration of the relationship scan (lines 256-285): keep only
    `detects` edges shaped detection-strategy → attack-pattern, resolve
    both endpoints, require both in-domain, then record the edge and — when
    the target resolves to an accepted technique — the strategy id. -/
def pass2Step (d : String) (byId : List (String × Obj)) (p1 : Pass1State)
    (st : Pass2State) (o : Obj) : Pass2State :=
  match jget o "type" with
  | some (JVal.str t) =>
    if t = "relationship" then
      match jget o "relationship_type" with
      | some (JVal.str rt) =>
        if rt = "detects" then
          match jget o "source_ref", jget o "target_ref" with
          | some (JVal.str src), some (JVal.str tgt) =>
            if strStartsWith src "x-mitre-detection-strategy--" &&
               strStartsWith tgt "attack-pattern--" then
              match dictGet p1.dsByStix src, dictGet byId tgt with
              | some dsObj, some techObj =>
                if in_domain dsObj d && in_domain techObj d then
                  match dictGet p1.techStixToTid tgt with
                  | some tid =>
                      if tid = "" then
                        { st with dsToTechStix := dictAppend st.dsToTechStix src tgt }
                      else
                        { st with
                          dsToTechStix := dictAppend st.dsToTechStix src tgt
                          techTidToDsIds :=
                            dictSetAdd st.techTidToDsIds tid (dsIdOf dsObj src) }
                  | none => { st with dsToTechStix := dictAppend st.dsToTechStix src tgt }
                else st
              | _, _ => st
            else st
          | _, _ => st
        else st
      | _ => st
    else st
  | _ => st

def runPass2 (d : String) (byId : List (String × Obj)) (p1 : Pass1State)
    (objs : List Obj) : Pass2State :=
  objs.foldl (pass2Step d byId p1) pass2Init

/- ---------------------------------------------------------------------
Nested aggregation: detection strategies with analytics (lines 287-353).
--------------------------------------------------------------------- -/

/-- Data-component references of one analytic (lines 316-324): entries of
    `x_mitre_log_source_references` whose `x_mitre_data_component_ref` is a
    string belonging to the collected in-domain component id set. -/
def analyticDcs (dcStixIds : List String) (aObj : Obj) : List String :=
  match jget aObj "x_mitre_log_source_references" with
  | some (JVal.list entries) => entries.filterMap (fun e => match e with
      | JVal.dict entry =>
          (match jget entry "x_mitre_data_component_ref" with
           | some (JVal.str dc) => if dc ∈ dcStixIds then some dc else none
           | _ => none)
      | _ => none)
  | _ => []

/-- Nested analytic record (lines 313-338); `pseudocode` is the literal
    empty string and the component list is `sorted(set(...))`. -/
def analyticRecord (dcStixIds : List String) (aStix : String) (aObj : Obj) : Analytic :=
  { id := orElseStr (get_attack_external_id aObj (some "AN")) aStix
    name := getStrOrEmpty aObj "name"
    description := getStrOrEmpty aObj "description"
    pseudocode := ""
    dataComponents := pySortedSet (analyticDcs dcStixIds aObj) }

/-- Resolution of a strategy's analytic-reference list (lines 304-338):
    non-string entries and references missing from the analytic side-map
    are skipped. -/
def analyticsOfRefs (analyticsByStix : List (String × Obj)) (dcStixIds : List String)
    (refs : List JVal) : List Analytic :=
  refs.filterMap (fun r => match r with
    | JVal.str aStix => (dictGet analyticsByStix aStix).map (analyticRecord dcStixIds aStix)
    | _ => none)

/-- The `x_mitre_analytic_refs` resolution, defaulting to no analytics when absent or not
    a list (line 304-305). -/
def analyticsOf (analyticsByStix : List (String × Obj)) (dcStixIds : List String)
    (dsObj : Obj) : List Analytic :=
  match jget dsObj "x_mitre_analytic_refs" with
  | some (JVal.list refs) => analyticsOfRefs analyticsByStix dcStixIds refs
  | _ => []

/-- Technique codes detected by a strategy (lines 294-298): resolve each
    recorded target stix id through the technique map, keeping truthy
    results. -/
def dsTechIds (techStixToTid : List (String × String))
    (dsToTechStix : List (String × List String)) (dsStix : String) : List String :=
  ((dictGet dsToTechStix dsStix).getD []).filterMap (fun tStix =>
    match dictGet techStixToTid tStix with
    | some tid => if tid = "" then none else some tid
    | none => none)

/-- Python `sorted(dc_refs)` where `dc_refs` is the set union of the nested
    analytics' component lists (lines 302, 327-328, 351). -/
def dsDcRefs (analytics : List Analytic) : List String :=
  sortList (analytics.foldl (fun acc a => a.dataComponents.foldl setAdd acc) [])

/-- The detection-strategy record for one side-map entry (lines 344-352). -/
def dsRecordOf (techStixToTid : List (String × String))
    (dsToTechStix : List (String × List String))
    (analyticsByStix : List (String × Obj)) (dcStixIds : List String)
    (dsStix : String) (dsObj : Obj) : DetectionStrategy :=
  { id := dsIdOf dsObj dsStix
    name := getStrOrEmpty dsObj "name"
    description := getStrOrEmpty dsObj "description"
    techniques := pySortedSet (dsTechIds techStixToTid dsToTechStix dsStix)
    analytics := analyticsOf analyticsByStix dcStixIds dsObj
    dataComponentRefs := dsDcRefs (analyticsOf analyticsByStix dcStixIds dsObj) }

/-- Build all emitted detection strategies (lines 290-353): one candidate
    per side-map entry, emitted only when it resolves to at least one
    technique or at least one analytic. -/
def buildDS (techStixToTid : List (String × String))
    (dsToTechStix : List (String × List String))
    (analyticsByStix : List (String × Obj)) (dcStixIds : List String)
    (dsByStix : List (String × Obj)) : List DetectionStrategy :=
  dsByStix.filterMap (fun p =>
    if (dsTechIds techStixToTid dsToTechStix p.1).isEmpty &&
       (analyticsOf analyticsByStix dcStixIds p.2).isEmpty then none
    else some (dsRecordOf techStixToTid dsToTechStix analyticsByStix dcStixIds p.1 p.2))

/-- Back-fill of `technique.detectionStrategyIds` (lines 356-360).  The
    source indexes `techniques[idx]` directly; the `[idx]?` guard is
    unreachable because every recorded index is in range (proved below). -/
def backfill (tidToTechIndex : List (String × Nat))
    (techTidToDsIds : List (String × List String))
    (techs : List Technique) : List Technique :=
  techTidToDsIds.foldl (fun ts p =>
    match dictGet tidToTechIndex p.1 with
    | none => ts
    | some idx =>
      match ts[idx]? with
      | some t => ts.set idx { t with detectionStrategyIds := sortList p.2 }
      | none => ts) techs

/- ---------------------------------------------------------------------
Deterministic serialisation (lines 365-381).
--------------------------------------------------------------------- -/

/-- Sort key of `detectionStrategies_sort` (lines 376-380): ids of the
    form `DET` followed by at least one digit first (Python `isdigit` is
    false on the empty string), then everything else, each group ordered
    by the id itself (tuple comparison is lexicographic). -/
def dsKey (x : DetectionStrategy) : Nat × String :=
  if strStartsWith x.id "DET" && !(x.id.data.drop 3).isEmpty &&
     (x.id.data.drop 3).all Char.isDigit then
    (0, x.id)
  else (1, x.id)

/-- Python's tuple comparison on `dsKey` (lexicographic). -/
def dsLe (a b : DetectionStrategy) : Prop :=
  (dsKey a).1 < (dsKey b).1 ∨ ((dsKey a).1 = (dsKey b).1 ∧ strLe (dsKey a).2 (dsKey b).2)

instance : DecidableRel dsLe := fun a b => by
  unfold dsLe
  infer_instance

instance : IsTrans DetectionStrategy dsLe where
  trans a b c hab hbc := by
    rcases hab with h1 | ⟨h1, h2⟩ <;> rcases hbc with g1 | ⟨g1, g2⟩
    · exact Or.inl (by omega)
    · exact Or.inl (by omega)
    · exact Or.inl (by omega)
    · exact Or.inr ⟨by omega, charLe_trans _ _ _ h2 g2⟩

instance : IsTotal DetectionStrategy dsLe where
  total a b := by
    rcases Nat.lt_trichotomy (dsKey a).1 (dsKey b).1 with h | h | h
    · exact Or.inl (Or.inl h)
    · rcases charLe_total ((dsKey a).2).data ((dsKey b).2).data with hs | hs
      · exact Or.inl (Or.inr ⟨h, hs⟩)
      · exact Or.inr (Or.inr ⟨h.symm, hs⟩)
    · exact Or.inr (Or.inl h)

/-- The function `detectionStrategies_sort` (lines 374-381): stable sort by `dsKey`
    (insertion sort is stable, matching Python's `sorted`). -/
def dsSort (l : List DetectionStrategy) : List DetectionStrategy :=
  List.insertionSort dsLe l

/-- The engine `extract_mitre_data` (lines 113-371), starting from the object list of
    the bundle: index, first pass, relationship pass, aggregation,
    back-fill, and emission with only `detectionStrategies` sorted. -/
def extract (d : String) (objs : List Obj) : ExtractResult :=
  let byId := buildById objs
  let p1 := runPass1 d objs
  let p2 := runPass2 d byId p1 objs
  { assets := p1.assets
    dataComponents := p1.dataComponents
    detectionStrategies :=
      dsSort (buildDS p1.techStixToTid p2.dsToTechStix p1.analyticsByStix
        p1.dcStixIds p1.dsByStix)
    techniques := backfill p1.tidToTechIndex p2.techTidToDsIds p1.techniques
    tactics := p1.tactics }

end Mitre

/- ---------------------------------------------------------------------
Library lemmas: association-list dictionaries, set insertion, sorting.
--------------------------------------------------------------------- -/

namespace Mitre

theorem dictGet_mem {α : Type} {m : List (String × α)} {k : String} {v : α}
    (h : dictGet m k = some v) : (k, v) ∈ m := by
  induction m with
  | nil => simp [dictGet] at h
  | cons p rest ih =>
    rcases p with ⟨k', v'⟩
    by_cases hk : k' = k
    · simp only [dictGet, hk, if_pos rfl] at h
      obtain rfl : v' = v := by injection h
      subst hk
      exact List.mem_cons_self _ _
    · simp only [dictGet, hk, if_neg] at h
      exact List.mem_cons_of_mem _ (ih h)

theorem mem_dictGet {α : Type} {m : List (String × α)} (hnd : NodupKeys m)
    {k : String} {v : α} (h : (k, v) ∈ m) : dictGet m k = some v := by
  induction m with
  | nil => simp at h
  | cons p rest ih =>
    rcases p with ⟨k', v'⟩
    rcases List.mem_cons.1 h with heq | htail
    · injection heq with h1 h2
      subst h1; subst h2
      simp [dictGet]
    · have hk : k' ≠ k := by
        intro hkk
        have : k ∈ rest.map Prod.fst := List.mem_map.2 ⟨(k, v), htail, rfl⟩
        have hnotin : k' ∉ rest.map Prod.fst := (List.nodup_cons.1 hnd).1
        exact hnotin (hkk ▸ this)
      have hrest : NodupKeys rest := (List.nodup_cons.1 hnd).2
      simp only [dictGet, hk, if_neg]
      exact ih hrest htail

theorem dictGet_dictInsert_self {α : Type} (m : List (String × α)) (k : String) (v : α) :
    dictGet (dictInsert m k v) k = some v := by
  induction m with
  | nil => simp [dictInsert, dictGet]
  | cons p rest ih =>
    rcases p with ⟨k', v'⟩
    by_cases hk : k' = k
    · simp [dictInsert, dictGet, hk]
    · simp [dictInsert, dictGet, hk, ih]

theorem dictGet_dictInsert_ne {α : Type} (m : List (String × α)) {k k' : String} (v : α)
    (h : k' ≠ k) : dictGet (dictInsert m k v) k' = dictGet m k' := by
  induction m with
  | nil => simp [dictInsert, dictGet, Ne.symm h]
  | cons p rest ih =>
    rcases p with ⟨k'', v''⟩
    simp only [dictInsert]
    by_cases hk : k'' = k
    · subst hk
      simp [dictGet, Ne.symm h]
    · simp only [if_neg hk, dictGet]
      by_cases hk2 : k'' = k'
      · simp [hk2]
      · simp [hk2, ih]

theorem mem_keys_dictInsert {α : Type} (m : List (String × α)) (k : String) (v : α)
    (x : String) :
    x ∈ (dictInsert m k v).map Prod.fst → x ∈ m.map Prod.fst ∨ x = k := by
  induction m with
  | nil =>
    intro h
    right
    simpa [dictInsert] using h
  | cons p rest ih =>
    rcases p with ⟨k', v'⟩
    by_cases hk : k' = k
    · subst hk
      intro h
      rw [dictInsert, if_pos rfl] at h
      left
      simp only [List.map_cons, List.mem_cons] at h ⊢
      exact h
    · intro h
      rw [dictInsert, if_neg hk] at h
      simp only [List.map_cons, List.mem_cons] at h
      rcases h with h | h
      · exact Or.inl (by simp [h])
      · rcases ih h with h' | h'
        · exact Or.inl (List.mem_cons_of_mem _ h')
        · exact Or.inr h'

theorem nodupKeys_dictInsert {α : Type} {m : List (String × α)} (hnd : NodupKeys m)
    (k : String) (v : α) : NodupKeys (dictInsert m k v) := by
  induction m with
  | nil => simp [NodupKeys, dictInsert]
  | cons p rest ih =>
    rcases p with ⟨k', v'⟩
    have hhead : k' ∉ rest.map Prod.fst := (List.nodup_cons.1 hnd).1
    have hrest : NodupKeys rest := (List.nodup_cons.1 hnd).2
    by_cases hk : k' = k
    · subst hk
      simpa [NodupKeys, dictInsert] using hnd
    · have : NodupKeys (dictInsert rest k v) := ih hrest
      simp only [NodupKeys, dictInsert, hk, if_neg, List.map_cons]
      refine List.nodup_cons.2 ⟨?_, this⟩
      intro hmem
      rcases mem_keys_dictInsert rest k v k' hmem with h | h
      · exact hhead h
      · exact hk h

theorem mem_dictInsert {α : Type} {m : List (String × α)} (hnd : NodupKeys m)
    {k k' : String} {v v' : α} :
    (k', v') ∈ dictInsert m k v ↔ (k' = k ∧ v' = v) ∨ (k' ≠ k ∧ (k', v') ∈ m) := by
  constructor
  · intro h
    by_cases hk : k' = k
    · subst hk
      have := mem_dictGet (nodupKeys_dictInsert hnd _ _) h
      rw [dictGet_dictInsert_self] at this
      exact Or.inl ⟨rfl, by injection this with hv; exact hv.symm⟩
    · refine Or.inr ⟨hk, ?_⟩
      have := mem_dictGet (nodupKeys_dictInsert hnd _ _) h
      rw [dictGet_dictInsert_ne _ _ hk] at this
      exact dictGet_mem this
  · rintro (⟨rfl, rfl⟩ | ⟨hk, hmem⟩)
    · exact dictGet_mem (dictGet_dictInsert_self m _ _)
    · have := mem_dictGet hnd hmem
      exact dictGet_mem (by rw [dictGet_dictInsert_ne _ _ hk]; exact this)

theorem dictGet_dictAppend_self {β : Type} (m : List (String × List β)) (k : String) (v : β) :
    dictGet (dictAppend m k v) k = some (((dictGet m k).getD []) ++ [v]) := by
  induction m with
  | nil => simp [dictAppend, dictGet]
  | cons p rest ih =>
    rcases p with ⟨k', l⟩
    by_cases hk : k' = k
    · simp [dictAppend, dictGet, hk]
    · simp [dictAppend, dictGet, hk, ih]

theorem dictGet_dictAppend_ne {β : Type} (m : List (String × List β)) {k k' : String} (v : β)
    (h : k' ≠ k) : dictGet (dictAppend m k v) k' = dictGet m k' := by
  induction m with
  | nil => simp [dictAppend, dictGet, Ne.symm h]
  | cons p rest ih =>
    rcases p with ⟨k'', l⟩
    simp only [dictAppend]
    by_cases hk : k'' = k
    · subst hk
      simp [dictGet, Ne.symm h]
    · simp only [if_neg hk, dictGet]
      by_cases hk2 : k'' = k'
      · simp [hk2]
      · simp [hk2, ih]

theorem mem_setAdd {s : List String} {x y : String} :
    x ∈ setAdd s y ↔ x ∈ s ∨ x = y := by
  by_cases h : y ∈ s
  · simp only [setAdd, if_pos h]
    constructor
    · exact Or.inl
    · rintro (hx | rfl) <;> [exact hx; exact h]
  · simp [setAdd, if_neg h]

theorem nodup_setAdd {s : List String} (h : s.Nodup) (y : String) : (setAdd s y).Nodup := by
  by_cases hy : y ∈ s
  · simpa [setAdd, if_pos hy] using h
  · rw [setAdd, if_neg hy]
    refine List.Nodup.append h (List.nodup_singleton y) ?_
    intro a ha hmem
    rw [List.mem_singleton] at hmem
    exact hy (hmem ▸ ha)

theorem dictGet_dictSetAdd_self (m : List (String × List String)) (k v : String) :
    dictGet (dictSetAdd m k v) k = some (setAdd ((dictGet m k).getD []) v) := by
  induction m with
  | nil => simp [dictSetAdd, dictGet, setAdd]
  | cons p rest ih =>
    rcases p with ⟨k', l⟩
    by_cases hk : k' = k
    · simp [dictSetAdd, dictGet, hk]
    · simp [dictSetAdd, dictGet, hk, ih]

theorem dictGet_dictSetAdd_ne (m : List (String × List String)) {k k' : String} (v : String)
    (h : k' ≠ k) : dictGet (dictSetAdd m k v) k' = dictGet m k' := by
  induction m with
  | nil => simp [dictSetAdd, dictGet, Ne.symm h]
  | cons p rest ih =>
    rcases p with ⟨k'', l⟩
    simp only [dictSetAdd]
    by_cases hk : k'' = k
    · subst hk
      simp [dictGet, Ne.symm h]
    · simp only [if_neg hk, dictGet]
      by_cases hk2 : k'' = k'
      · simp [hk2]
      · simp [hk2, ih]

theorem mem_keys_dictSetAdd (m : List (String × List String)) (k v x : String) :
    x ∈ (dictSetAdd m k v).map Prod.fst → x ∈ m.map Prod.fst ∨ x = k := by
  induction m with
  | nil =>
    intro h
    right
    simpa [dictSetAdd] using h
  | cons p rest ih =>
    rcases p with ⟨k', l⟩
    by_cases hk : k' = k
    · subst hk
      intro h
      rw [dictSetAdd, if_pos rfl] at h
      left
      simp only [List.map_cons, List.mem_cons] at h ⊢
      exact h
    · intro h
      rw [dictSetAdd, if_neg hk] at h
      simp only [List.map_cons, List.mem_cons] at h
      rcases h with h | h
      · exact Or.inl (by simp [h])
      · rcases ih h with h' | h'
        · exact Or.inl (List.mem_cons_of_mem _ h')
        · exact Or.inr h'

theorem nodupKeys_dictSetAdd {m : List (String × List String)} (hnd : NodupKeys m)
    (k v : String) : NodupKeys (dictSetAdd m k v) := by
  induction m with
  | nil => simp [NodupKeys, dictSetAdd]
  | cons p rest ih =>
    rcases p with ⟨k', l⟩
    have hhead : k' ∉ rest.map Prod.fst := (List.nodup_cons.1 hnd).1
    have hrest : NodupKeys rest := (List.nodup_cons.1 hnd).2
    by_cases hk : k' = k
    · subst hk
      simpa [NodupKeys, dictSetAdd] using hnd
    · have : NodupKeys (dictSetAdd rest k v) := ih hrest
      simp only [NodupKeys, dictSetAdd, hk, if_neg, List.map_cons]
      refine List.nodup_cons.2 ⟨?_, this⟩
      intro hmem
      rcases mem_keys_dictSetAdd rest k v k' hmem with h | h
      · exact hhead h
      · exact hk h

theorem foldl_setAdd_mem (l : List String) (acc : List String) (x : String) :
    x ∈ l.foldl setAdd acc ↔ x ∈ acc ∨ x ∈ l := by
  induction l generalizing acc with
  | nil => simp
  | cons a rest ih =>
    rw [List.foldl_cons, ih]
    rw [mem_setAdd]
    constructor
    · rintro ((h | h) | h)
      · exact Or.inl h
      · exact Or.inr (h ▸ List.mem_cons_self _ _)
      · exact Or.inr (List.mem_cons_of_mem _ h)
    · rintro (h | h)
      · exact Or.inl (Or.inl h)
      · rcases List.mem_cons.1 h with h' | h'
        · exact Or.inl (Or.inr h')
        · exact Or.inr h'

theorem nodup_foldl_setAdd (l : List String) {acc : List String} (h : acc.Nodup) :
    (l.foldl setAdd acc).Nodup := by
  induction l generalizing acc with
  | nil => simpa
  | cons a rest ih => exact ih (nodup_setAdd h a)

theorem foldl_setAdd_flat_mem {α : Type} (f : α → List String) (l : List α)
    (acc : List String) (x : String) :
    x ∈ l.foldl (fun acc2 a => (f a).foldl setAdd acc2) acc ↔
      x ∈ acc ∨ ∃ a ∈ l, x ∈ f a := by
  induction l generalizing acc with
  | nil => simp
  | cons a rest ih =>
    rw [List.foldl_cons, ih, foldl_setAdd_mem]
    constructor
    · rintro ((h | h) | ⟨b, hb, hx⟩)
      · exact Or.inl h
      · exact Or.inr ⟨a, List.mem_cons_self _ _, h⟩
      · exact Or.inr ⟨b, List.mem_cons_of_mem _ hb, hx⟩
    · rintro (h | ⟨b, hb, hx⟩)
      · exact Or.inl (Or.inl h)
      · rcases List.mem_cons.1 hb with rfl | hb'
        · exact Or.inl (Or.inr hx)
        · exact Or.inr ⟨b, hb', hx⟩

theorem nodup_foldl_setAdd_flat {α : Type} (f : α → List String) (l : List α)
    {acc : List String} (h : acc.Nodup) :
    (l.foldl (fun acc2 a => (f a).foldl setAdd acc2) acc).Nodup := by
  induction l generalizing acc with
  | nil => simpa
  | cons a rest ih => exact ih (nodup_foldl_setAdd (f a) h)

theorem sortList_perm (l : List String) : List.Perm (sortList l) l :=
  List.perm_insertionSort _ l

theorem mem_sortList {l : List String} {x : String} : x ∈ sortList l ↔ x ∈ l :=
  (sortList_perm l).mem_iff

theorem sortList_sorted (l : List String) : (sortList l).Sorted strLe :=
  List.sorted_insertionSort _ l

theorem sortList_nodup {l : List String} (h : l.Nodup) : (sortList l).Nodup :=
  ((sortList_perm l).nodup_iff).2 h

theorem sortList_eq_of_perm {l₁ l₂ : List String} (h : List.Perm l₁ l₂) :
    sortList l₁ = sortList l₂ :=
  List.eq_of_perm_of_sorted
    (((sortList_perm l₁).trans h).trans (sortList_perm l₂).symm)
    (sortList_sorted l₁) (sortList_sorted l₂)

theorem mem_pySortedSet {l : List String} {x : String} :
    x ∈ pySortedSet l ↔ x ∈ l := by
  rw [pySortedSet, mem_sortList, foldl_setAdd_mem]
  simp

theorem pySortedSet_ne_nil {l : List String} (h : l ≠ []) : pySortedSet l ≠ [] := by
  rcases List.exists_mem_of_ne_nil l h with ⟨a, ha⟩
  exact List.ne_nil_of_mem (mem_pySortedSet.2 ha)

/-- The specification's "sorted, deduplicated union" of a family of lists. -/
def sortedDedupUnion (ls : List (List String)) : List String :=
  sortList ls.flatten.dedup

/-- The accumulator `dsDcRefs` computes exactly the sorted deduplicated union of the
    nested analytics' component lists. -/
theorem dsDcRefs_eq_sortedDedupUnion (analytics : List Analytic) :
    dsDcRefs analytics = sortedDedupUnion (analytics.map Analytic.dataComponents) := by
  rw [dsDcRefs, sortedDedupUnion]
  apply sortList_eq_of_perm
  apply (List.perm_ext_iff_of_nodup
    (nodup_foldl_setAdd_flat Analytic.dataComponents analytics List.nodup_nil)
    (List.nodup_dedup _)).2
  intro a
  rw [foldl_setAdd_flat_mem, List.mem_dedup, List.mem_flatten]
  simp

/- ---------------------------------------------------------------------
Invariants of the first pass.
--------------------------------------------------------------------- -/

/-- Invariant maintained by the first pass: freshly extracted techniques
    have empty `detectionStrategyIds`; `tidToTechIndex` maps a tid to the
    position of the last technique record carrying it; every value of
    `techStixToTid` is a non-empty id carried by some technique record;
    the side maps are genuine dictionaries. -/
structure P1Inv (st : Pass1State) : Prop where
  dsIds_nil : ∀ t ∈ st.techniques, t.detectionStrategyIds = []
  idx_keys : NodupKeys st.tidToTechIndex
  idx_last : ∀ p ∈ st.tidToTechIndex,
      ∃ t : Technique, st.techniques[p.2]? = some t ∧ t.id = p.1 ∧
        ∀ (j : Nat) (t' : Technique), p.2 < j → st.techniques[j]? = some t' → t'.id ≠ p.1
  tid_range : ∀ q ∈ st.techStixToTid, q.2 ≠ "" ∧
      ∃ (k : Nat) (t : Technique), st.techniques[k]? = some t ∧ t.id = q.2
  ds_keys : NodupKeys st.dsByStix
  an_keys : NodupKeys st.analyticsByStix
  stt_keys : NodupKeys st.techStixToTid

theorem p1Inv_init : P1Inv pass1Init := by
  constructor <;> simp [pass1Init, NodupKeys]

theorem p1Inv_addTech {st : Pass1State} (inv : P1Inv st) (o : Obj) {tid : String}
    (htid : tid ≠ "") : P1Inv (pass1AddTech st o tid) := by
  have hTechs : (pass1AddTech st o tid).techniques
      = st.techniques ++ [techniqueRecord o tid] := rfl
  have hIdx : (pass1AddTech st o tid).tidToTechIndex
      = dictInsert st.tidToTechIndex tid st.techniques.length := rfl
  have hstt : (pass1AddTech st o tid).techStixToTid
      = (match jget o "id" with
         | some (JVal.str s) => dictInsert st.techStixToTid s tid
         | _ => st.techStixToTid) := rfl
  constructor
  case dsIds_nil =>
    intro t ht
    rw [hTechs] at ht
    rcases List.mem_append.1 ht with h | h
    · exact inv.dsIds_nil t h
    · rw [List.mem_singleton] at h
      subst h
      rfl
  case idx_keys =>
    rw [hIdx]
    exact nodupKeys_dictInsert inv.idx_keys _ _
  case idx_last =>
    intro p hp
    obtain ⟨ptid, pidx⟩ := p
    rw [hIdx] at hp
    rw [hTechs]
    rcases (mem_dictInsert inv.idx_keys).1 hp with ⟨h1, h2⟩ | ⟨hne, hmem⟩
    · refine ⟨techniqueRecord o tid, ?_, ?_, ?_⟩
      · rw [h2]
        exact List.getElem?_concat_length _ _
      · rw [h1]
        rfl
      · intro j t' hj hjt
        rw [h2] at hj
        have hlen : (st.techniques ++ [techniqueRecord o tid]).length ≤ j := by
          rw [List.length_append, List.length_singleton]
          omega
        rw [List.getElem?_eq_none hlen] at hjt
        simp at hjt
    · obtain ⟨t, hget, hid, hlater⟩ := inv.idx_last _ hmem
      obtain ⟨hlt, _⟩ := List.getElem?_eq_some.1 hget
      refine ⟨t, by rw [List.getElem?_append_left hlt]; exact hget, hid, ?_⟩
      intro j t' hj hjt
      by_cases hjlt : j < st.techniques.length
      · rw [List.getElem?_append_left hjlt] at hjt
        exact hlater j t' hj hjt
      · push_neg at hjlt
        by_cases hje : j = st.techniques.length
        · subst hje
          rw [List.getElem?_concat_length] at hjt
          obtain rfl : techniqueRecord o tid = t' := by injection hjt
          simpa using fun h => hne h.symm
        · have hlen : (st.techniques ++ [techniqueRecord o tid]).length ≤ j := by
            rw [List.length_append, List.length_singleton]
            omega
          rw [List.getElem?_eq_none hlen] at hjt
          simp at hjt
  case tid_range =>
    have hlift : ∀ q ∈ st.techStixToTid, q.2 ≠ "" ∧
        ∃ (k : Nat) (t : Technique),
          (st.techniques ++ [techniqueRecord o tid])[k]? = some t ∧ t.id = q.2 := by
      intro q hq
      obtain ⟨hne, k, t, hget, hid⟩ := inv.tid_range q hq
      obtain ⟨hlt, _⟩ := List.getElem?_eq_some.1 hget
      exact ⟨hne, k, t, by rw [List.getElem?_append_left hlt]; exact hget, hid⟩
    intro q hq
    rw [hstt] at hq
    rw [hTechs]
    split at hq
    · obtain ⟨qs, qtid⟩ := q
      rcases (mem_dictInsert inv.stt_keys).1 hq with ⟨h1, h2⟩ | ⟨hne, hmem⟩
      · refine ⟨?_, st.techniques.length, techniqueRecord o tid,
          List.getElem?_concat_length _ _, ?_⟩
        · rw [h2]
          exact htid
        · rw [h2]
          rfl
      · exact hlift _ hmem
    · exact hlift q hq
  case ds_keys => exact inv.ds_keys
  case an_keys => exact inv.an_keys
  case stt_keys =>
    rw [hstt]
    split
    · exact nodupKeys_dictInsert inv.stt_keys _ _
    · exact inv.stt_keys

theorem p1Inv_step (d : String) {st : Pass1State} (inv : P1Inv st) (o : Obj) :
    P1Inv (pass1Step d st o) := by
  unfold pass1Step
  split
  · split_ifs with h1 h2 h3 h4 h5 h6
    · exact ⟨inv.dsIds_nil, inv.idx_keys, inv.idx_last, inv.tid_range,
        inv.ds_keys, inv.an_keys, inv.stt_keys⟩
    · exact ⟨inv.dsIds_nil, inv.idx_keys, inv.idx_last, inv.tid_range,
        inv.ds_keys, inv.an_keys, inv.stt_keys⟩
    · exact ⟨inv.dsIds_nil, inv.idx_keys, inv.idx_last, inv.tid_range,
        inv.ds_keys, inv.an_keys, inv.stt_keys⟩
    · split
      · split_ifs with htid0
        · exact inv
        · exact p1Inv_addTech inv o htid0
      · exact inv
    · refine ⟨inv.dsIds_nil, inv.idx_keys, inv.idx_last, inv.tid_range,
        inv.ds_keys, ?_, inv.stt_keys⟩
      have hfield : (pass1AddAnalytic st o).analyticsByStix =
          (match jget o "id" with
           | some (JVal.str s) => dictInsert st.analyticsByStix s o
           | _ => st.analyticsByStix) := rfl
      rw [hfield]
      split
      · exact nodupKeys_dictInsert inv.an_keys _ _
      · exact inv.an_keys
    · refine ⟨inv.dsIds_nil, inv.idx_keys, inv.idx_last, inv.tid_range,
        ?_, inv.an_keys, inv.stt_keys⟩
      have hfield : (pass1AddDS st o).dsByStix =
          (match jget o "id" with
           | some (JVal.str s) => dictInsert st.dsByStix s o
           | _ => st.dsByStix) := rfl
      rw [hfield]
      split
      · exact nodupKeys_dictInsert inv.ds_keys _ _
      · exact inv.ds_keys
    · exact inv
  · exact inv

theorem p1Inv_foldl (d : String) (objs : List Obj) :
    ∀ st : Pass1State, P1Inv st → P1Inv (objs.foldl (pass1Step d) st) := by
  induction objs with
  | nil => exact fun st inv => inv
  | cons o rest ih => exact fun st inv => ih _ (p1Inv_step d inv o)

theorem p1Inv_run (d : String) (objs : List Obj) : P1Inv (runPass1 d objs) :=
  p1Inv_foldl d objs pass1Init p1Inv_init

theorem pass1Step_techniques (d : String) (st : Pass1State) (o : Obj) :
    (pass1Step d st o).techniques = st.techniques ++ (acceptTech d o).toList := by
  rcases htyp : jget o "type" with _ | v
  · simp [pass1Step, acceptTech, htyp]
  cases v with
  | str t =>
    simp only [pass1Step, acceptTech, htyp]
    by_cases h1 : (t = "x-mitre-tactic" && is_active o && in_domain o d) = true
    · have ht : t = "x-mitre-tactic" := by
        simp only [Bool.and_eq_true, decide_eq_true_eq] at h1
        exact h1.1.1
      subst ht
      rw [if_pos h1]
      simp
    rw [if_neg h1]
    by_cases h2 : (t = "x-mitre-asset" && is_active o && in_domain o d) = true
    · have ht : t = "x-mitre-asset" := by
        simp only [Bool.and_eq_true, decide_eq_true_eq] at h2
        exact h2.1.1
      subst ht
      rw [if_pos h2]
      simp
    rw [if_neg h2]
    by_cases h3 : (t = "x-mitre-data-component" && is_active o && in_domain o d) = true
    · have ht : t = "x-mitre-data-component" := by
        simp only [Bool.and_eq_true, decide_eq_true_eq] at h3
        exact h3.1.1
      subst ht
      rw [if_pos h3]
      simp [pass1AddDC]
    rw [if_neg h3]
    by_cases h4 : (t = "attack-pattern" && is_active o && in_domain o d) = true
    · rw [if_pos h4, if_pos h4]
      rcases hg : get_attack_external_id o (some "T") with _ | tid
      · simp
      · by_cases htid : tid = ""
        · simp [htid]
        · simp [htid, pass1AddTech]
    rw [if_neg h4, if_neg h4]
    by_cases h5 : (t = "x-mitre-analytic" && is_active o && in_domain o d) = true
    · rw [if_pos h5]
      simp [pass1AddAnalytic]
    rw [if_neg h5]
    by_cases h6 : (t = "x-mitre-detection-strategy" && is_active o && in_domain o d) = true
    · rw [if_pos h6]
      simp [pass1AddDS]
    rw [if_neg h6]
    simp
  | bool b => simp [pass1Step, acceptTech, htyp]
  | num n => simp [pass1Step, acceptTech, htyp]
  | list l => simp [pass1Step, acceptTech, htyp]
  | dict m => simp [pass1Step, acceptTech, htyp]
  | null => simp [pass1Step, acceptTech, htyp]

theorem runPass1_techniques (d : String) (objs : List Obj) :
    (runPass1 d objs).techniques = objs.filterMap (acceptTech d) := by
  have haux : ∀ st : Pass1State,
      (objs.foldl (pass1Step d) st).techniques
        = st.techniques ++ objs.filterMap (acceptTech d) := by
    induction objs with
    | nil => intro st; simp
    | cons o rest ih =>
      intro st
      rw [List.foldl_cons, ih (pass1Step d st o), pass1Step_techniques]
      rcases htech : acceptTech d o with _ | tech
      · simp [List.filterMap_cons, htech]
      · simp [List.filterMap_cons, htech]
  have := haux pass1Init
  simpa [runPass1, pass1Init] using this

/- ---------------------------------------------------------------------
Invariants of the relationship pass.
--------------------------------------------------------------------- -/

theorem mem_getD_dictAppend {β : Type} {m : List (String × List β)} {k' : String} {x : β}
    (k : String) (v : β) (h : x ∈ (dictGet m k').getD []) :
    x ∈ (dictGet (dictAppend m k v) k').getD [] := by
  by_cases hk : k' = k
  · subst hk
    rw [dictGet_dictAppend_self]
    exact List.mem_append_left _ h
  · rw [dictGet_dictAppend_ne _ _ hk]
    exact h

theorem self_mem_dictAppend {β : Type} (m : List (String × List β)) (k : String) (v : β) :
    v ∈ (dictGet (dictAppend m k v) k).getD [] := by
  rw [dictGet_dictAppend_self]
  simp

/-- Invariant of the relationship pass: `techTidToDsIds` is a genuine
    dictionary, and every recorded strategy id traces back to a retained
    edge whose source resolves in the strategy side-map and whose target
    resolves to the given tid. -/
structure P2Inv (p1 : Pass1State) (st : Pass2State) : Prop where
  tm_keys : NodupKeys st.techTidToDsIds
  links : ∀ tid dsid, dsid ∈ ((dictGet st.techTidToDsIds tid).getD []) →
    ∃ (src : String) (dsObj : Obj) (tgt : String),
      dictGet p1.dsByStix src = some dsObj ∧
      dsid = dsIdOf dsObj src ∧
      tgt ∈ ((dictGet st.dsToTechStix src).getD []) ∧
      dictGet p1.techStixToTid tgt = some tid

theorem p2Inv_init (p1 : Pass1State) : P2Inv p1 pass2Init := by
  constructor
  · simp [pass2Init, NodupKeys]
  · intro tid dsid h
    simp [pass2Init, dictGet] at h

theorem p2Inv_step (d : String) (byId : List (String × Obj)) (p1 : Pass1State)
    {st : Pass2State} (inv : P2Inv p1 st) (o : Obj) :
    P2Inv p1 (pass2Step d byId p1 st o) := by
  have happend : ∀ src tgt,
      P2Inv p1 { st with dsToTechStix := dictAppend st.dsToTechStix src tgt } := by
    intro src tgt
    refine ⟨inv.tm_keys, ?_⟩
    intro tid dsid h
    obtain ⟨s, dobj, tg, h1, h2, h3, h4⟩ := inv.links tid dsid h
    exact ⟨s, dobj, tg, h1, h2, mem_getD_dictAppend _ _ h3, h4⟩
  unfold pass2Step
  split
  · split_ifs with hrel
    · split
      · split_ifs with hdet
        · split
          · split_ifs with hpfx
            · split
              · split_ifs with hdom
                · split
                  · split_ifs with htid0
                    · exact happend _ _
                    · -- the full update: both maps extended
                      rename_i src tgt hsref htref xds xby dsObj techObj hds hby xtid tid htgt
                      refine ⟨nodupKeys_dictSetAdd inv.tm_keys _ _, ?_⟩
                      intro tid' dsid h
                      by_cases htid : tid' = tid
                      · subst htid
                        rw [dictGet_dictSetAdd_self] at h
                        simp only [Option.getD_some] at h
                        rcases mem_setAdd.1 h with hold | hnew
                        · obtain ⟨s, dobj, tg, h1, h2, h3, h4⟩ := inv.links tid' dsid hold
                          exact ⟨s, dobj, tg, h1, h2, mem_getD_dictAppend _ _ h3, h4⟩
                        · exact ⟨src, dsObj, tgt, hds, hnew,
                            self_mem_dictAppend _ _ _, htgt⟩
                      · rw [dictGet_dictSetAdd_ne _ _ htid] at h
                        obtain ⟨s, dobj, tg, h1, h2, h3, h4⟩ := inv.links tid' dsid h
                        exact ⟨s, dobj, tg, h1, h2, mem_getD_dictAppend _ _ h3, h4⟩
                  · exact happend _ _
                · exact inv
              · exact inv
            · exact inv
          · exact inv
        · exact inv
      · exact inv
    · exact inv
  · exact inv

theorem p2Inv_run (d : String) (byId : List (String × Obj)) (p1 : Pass1State)
    (objs : List Obj) : P2Inv p1 (runPass2 d byId p1 objs) := by
  have haux : ∀ st : Pass2State, P2Inv p1 st →
      P2Inv p1 (objs.foldl (pass2Step d byId p1) st) := by
    induction objs with
    | nil => exact fun st inv => inv
    | cons o rest ih => exact fun st inv => ih _ (p2Inv_step d byId p1 inv o)
  exact haux pass2Init (p2Inv_init p1)

/- ---------------------------------------------------------------------
Properties of the back-fill step.
--------------------------------------------------------------------- -/

theorem backfill_cons (idx : List (String × Nat)) (p0 : String × List String)
    (tm : List (String × List String)) (ts : List Technique) :
    backfill idx (p0 :: tm) ts = backfill idx tm
      (match dictGet idx p0.1 with
       | none => ts
       | some j =>
         match ts[j]? with
         | some t => ts.set j { t with detectionStrategyIds := sortList p0.2 }
         | none => ts) := rfl

theorem set_map_id {ts : List Technique} {j : Nat} {t a : Technique}
    (hj : ts[j]? = some t) (hid : a.id = t.id) (i : Nat) :
    ((ts.set j a)[i]?).map Technique.id = (ts[i]?).map Technique.id := by
  by_cases hij : j = i
  · subst hij
    obtain ⟨hlt, _⟩ := List.getElem?_eq_some.1 hj
    rw [List.getElem?_set_eq hlt, hj]
    simp [hid]
  · rw [List.getElem?_set_ne hij]

theorem backfill_map_id (idx : List (String × Nat)) (tm : List (String × List String)) :
    ∀ (ts : List Technique) (i : Nat),
      ((backfill idx tm ts)[i]?).map Technique.id = (ts[i]?).map Technique.id := by
  induction tm with
  | nil => intro ts i; rfl
  | cons p0 tm' ih =>
    intro ts i
    rw [backfill_cons]
    rcases hidx : dictGet idx p0.1 with _ | j
    · simp only [hidx]
      exact ih ts i
    · rcases hget : ts[j]? with _ | t
      · simp only [hidx, hget]
        exact ih ts i
      · simp only [hidx, hget]
        rw [ih]
        exact set_map_id (a := { t with detectionStrategyIds := sortList p0.2 }) hget rfl i

theorem backfill_unwritten (idx : List (String × Nat)) (tm : List (String × List String)) :
    ∀ (ts : List Technique) (i : Nat), (∀ k, dictGet idx k ≠ some i) →
      (backfill idx tm ts)[i]? = ts[i]? := by
  induction tm with
  | nil => intro ts i _; rfl
  | cons p0 tm' ih =>
    intro ts i h
    rw [backfill_cons]
    rcases hidx : dictGet idx p0.1 with _ | j
    · simp only [hidx]
      exact ih ts i h
    · have hji : j ≠ i := fun hji => h p0.1 (hji ▸ hidx)
      rcases hget : ts[j]? with _ | t
      · simp only [hidx, hget]
        exact ih ts i h
      · simp only [hidx, hget]
        rw [ih _ i h, List.getElem?_set_ne hji]

theorem backfill_go (idx : List (String × Nat)) (tm0 : List (String × List String)) :
    ∀ (tm : List (String × List String)) (ts : List Technique),
      (∀ p ∈ tm, p ∈ tm0) →
      (∀ p ∈ idx, ((ts[p.2]?).map Technique.id) = some p.1) →
      (∀ (i : Nat) (t' : Technique), ts[i]? = some t' →
        t'.detectionStrategyIds = [] ∨
          ∃ l, (t'.id, l) ∈ tm0 ∧ t'.detectionStrategyIds = sortList l) →
      ∀ (i : Nat) (t' : Technique), (backfill idx tm ts)[i]? = some t' →
        t'.detectionStrategyIds = [] ∨
          ∃ l, (t'.id, l) ∈ tm0 ∧ t'.detectionStrategyIds = sortList l := by
  intro tm
  induction tm with
  | nil => exact fun ts _ _ h3 i t' hget => h3 i t' hget
  | cons p0 tm' ih =>
    intro ts hsub hidx h3
    rw [backfill_cons]
    rcases hidxv : dictGet idx p0.1 with _ | j
    · simp only [hidxv]
      exact ih ts (fun p hp => hsub p (List.mem_cons_of_mem _ hp)) hidx h3
    · rcases hget : ts[j]? with _ | t
      · simp only [hidxv, hget]
        exact ih ts (fun p hp => hsub p (List.mem_cons_of_mem _ hp)) hidx h3
      · simp only [hidxv, hget]
        have htid : t.id = p0.1 := by
          have hentry := hidx (p0.1, j) (dictGet_mem hidxv)
          rw [hget] at hentry
          simpa using hentry
        apply ih
        · exact fun p hp => hsub p (List.mem_cons_of_mem _ hp)
        · intro p hp
          rw [set_map_id (a := { t with detectionStrategyIds := sortList p0.2 }) hget rfl p.2]
          exact hidx p hp
        · intro i t'' hget''
          by_cases hij : j = i
          · subst hij
            obtain ⟨hlt, _⟩ := List.getElem?_eq_some.1 hget
            rw [List.getElem?_set_eq hlt] at hget''
            obtain rfl : { t with detectionStrategyIds := sortList p0.2 } = t'' := by
              injection hget''
            right
            refine ⟨p0.2, ?_, rfl⟩
            have hid : ({ t with detectionStrategyIds := sortList p0.2 } : Technique).id
                = p0.1 := htid
            rw [hid]
            simpa using hsub p0 (List.mem_cons_self _ _)
          · rw [List.getElem?_set_ne hij] at hget''
            exact h3 i t'' hget''

theorem backfill_dsIds {idx : List (String × Nat)} {tm : List (String × List String)}
    {ts : List Technique}
    (hidx : ∀ p ∈ idx, ((ts[p.2]?).map Technique.id) = some p.1)
    (hts : ∀ t ∈ ts, t.detectionStrategyIds = []) :
    ∀ (i : Nat) (t' : Technique), (backfill idx tm ts)[i]? = some t' →
      t'.detectionStrategyIds = [] ∨
        ∃ l, (t'.id, l) ∈ tm ∧ t'.detectionStrategyIds = sortList l :=
  backfill_go idx tm tm ts (fun _ hp => hp) hidx
    (fun i t' hget => Or.inl (hts t' (List.mem_iff_getElem?.2 ⟨i, hget⟩)))

/- ---------------------------------------------------------------------
Characterisation of the emitted detection strategies.
--------------------------------------------------------------------- -/

theorem mem_buildDS {tstt : List (String × String)} {dstts : List (String × List String)}
    {abs : List (String × Obj)} {dcids : List String} {dsByStix : List (String × Obj)}
    {D : DetectionStrategy} :
    D ∈ buildDS tstt dstts abs dcids dsByStix ↔
    ∃ p ∈ dsByStix,
      ¬((dsTechIds tstt dstts p.1).isEmpty && (analyticsOf abs dcids p.2).isEmpty) = true ∧
      D = dsRecordOf tstt dstts abs dcids p.1 p.2 := by
  rw [buildDS, List.mem_filterMap]
  constructor
  · rintro ⟨p, hp, hf⟩
    by_cases hc : ((dsTechIds tstt dstts p.1).isEmpty &&
        (analyticsOf abs dcids p.2).isEmpty) = true
    · rw [if_pos hc] at hf
      cases hf
    · rw [if_neg hc] at hf
      refine ⟨p, hp, hc, ?_⟩
      injection hf with hf
      exact hf.symm
  · rintro ⟨p, hp, hc, rfl⟩
    exact ⟨p, hp, by rw [if_neg hc]⟩

theorem mem_dsSort {l : List DetectionStrategy} {D : DetectionStrategy} :
    D ∈ dsSort l ↔ D ∈ l :=
  (List.perm_insertionSort dsLe l).mem_iff

theorem extract_techniques (d : String) (objs : List Obj) :
    (extract d objs).techniques
      = backfill (runPass1 d objs).tidToTechIndex
          (runPass2 d (buildById objs) (runPass1 d objs) objs).techTidToDsIds
          (runPass1 d objs).techniques := rfl

theorem extract_detectionStrategies (d : String) (objs : List Obj) :
    (extract d objs).detectionStrategies
      = dsSort (buildDS (runPass1 d objs).techStixToTid
          (runPass2 d (buildById objs) (runPass1 d objs) objs).dsToTechStix
          (runPass1 d objs).analyticsByStix
          (runPass1 d objs).dcStixIds
          (runPass1 d objs).dsByStix) := rfl

/-- C3: for every emitted Technique `t`, every code in
    `t.detectionStrategyIds` names an emitted DetectionStrategy whose
    `techniques` list contains `t.id`; conversely every emitted
    DetectionStrategy's `techniques` list contains only ids of emitted
    Techniques. -/
theorem C3_referential_closure (d : String) (objs : List Obj) :
    (∀ t ∈ (extract d objs).techniques, ∀ dsid ∈ t.detectionStrategyIds,
      ∃ D ∈ (extract d objs).detectionStrategies, D.id = dsid ∧ t.id ∈ D.techniques) ∧
    (∀ D ∈ (extract d objs).detectionStrategies, ∀ tid ∈ D.techniques,
      ∃ t ∈ (extract d objs).techniques, t.id = tid) := by
  have hp1 := p1Inv_run d objs
  have hp2 := p2Inv_run d (buildById objs) (runPass1 d objs) objs
  have hEx := extract_techniques d objs
  have hExD := extract_detectionStrategies d objs
  have hidxmap : ∀ p ∈ (runPass1 d objs).tidToTechIndex,
      (((runPass1 d objs).techniques[p.2]?).map Technique.id) = some p.1 := by
    intro p hp
    obtain ⟨tt, hg, hid, _⟩ := hp1.idx_last p hp
    rw [hg, Option.map_some', hid]
  constructor
  · intro t ht dsid hdsid
    obtain ⟨i, hi⟩ := List.mem_iff_getElem?.1 (hEx ▸ ht)
    have hQ := backfill_dsIds hidxmap hp1.dsIds_nil i t hi
    rcases hQ with hnil | ⟨l, hl, hsort⟩
    · rw [hnil] at hdsid
      cases hdsid
    · rw [hsort] at hdsid
      have hml : dsid ∈ l := mem_sortList.1 hdsid
      have hgetl : dictGet
          (runPass2 d (buildById objs) (runPass1 d objs) objs).techTidToDsIds t.id
          = some l := mem_dictGet hp2.tm_keys hl
      have hmem : dsid ∈ (dictGet
          (runPass2 d (buildById objs) (runPass1 d objs) objs).techTidToDsIds t.id).getD [] := by
        rw [hgetl]
        exact hml
      obtain ⟨src, dsObj, tgt, hds, hdsidEq, htgtmem, htidg⟩ := hp2.links t.id dsid hmem
      have htne := (hp1.tid_range (tgt, t.id) (dictGet_mem htidg)).1
      have htin : t.id ∈ dsTechIds (runPass1 d objs).techStixToTid
          (runPass2 d (buildById objs) (runPass1 d objs) objs).dsToTechStix src := by
        rw [dsTechIds]
        refine List.mem_filterMap.2 ⟨tgt, htgtmem, ?_⟩
        rw [htidg]
        simp [htne]
      have hcond : ¬((dsTechIds (runPass1 d objs).techStixToTid
          (runPass2 d (buildById objs) (runPass1 d objs) objs).dsToTechStix src).isEmpty &&
          (analyticsOf (runPass1 d objs).analyticsByStix
            (runPass1 d objs).dcStixIds dsObj).isEmpty) = true := by
        rw [Bool.and_eq_true]
        rintro ⟨ha, -⟩
        rw [List.isEmpty_iff] at ha
        exact (List.ne_nil_of_mem htin) ha
      refine ⟨dsRecordOf (runPass1 d objs).techStixToTid
          (runPass2 d (buildById objs) (runPass1 d objs) objs).dsToTechStix
          (runPass1 d objs).analyticsByStix (runPass1 d objs).dcStixIds src dsObj,
          ?_, ?_, ?_⟩
      · rw [hExD, mem_dsSort]
        exact mem_buildDS.2 ⟨(src, dsObj), dictGet_mem hds, hcond, rfl⟩
      · exact hdsidEq.symm
      · exact mem_pySortedSet.2 htin
  · intro D hD tid htid
    rw [hExD, mem_dsSort] at hD
    obtain ⟨p, hp, hc, rfl⟩ := mem_buildDS.1 hD
    have htin : tid ∈ dsTechIds (runPass1 d objs).techStixToTid
        (runPass2 d (buildById objs) (runPass1 d objs) objs).dsToTechStix p.1 :=
      mem_pySortedSet.1 htid
    obtain ⟨tgt, htgtmem, hf⟩ := List.mem_filterMap.1 htin
    rcases hg : dictGet (runPass1 d objs).techStixToTid tgt with _ | tid'
    · rw [hg] at hf
      cases hf
    · rw [hg] at hf
      have hf' : (if tid' = "" then none else some tid') = some tid := hf
      by_cases h0 : tid' = ""
      · rw [if_pos h0] at hf'
        cases hf'
      · rw [if_neg h0] at hf'
        obtain rfl : tid' = tid := by injection hf'
        obtain ⟨-, k, tt, hgk, hidt⟩ := hp1.tid_range (tgt, tid') (dictGet_mem hg)
        have hmap := backfill_map_id (runPass1 d objs).tidToTechIndex
          (runPass2 d (buildById objs) (runPass1 d objs) objs).techTidToDsIds
          (runPass1 d objs).techniques k
        rw [hgk] at hmap
        rcases hbk : (backfill (runPass1 d objs).tidToTechIndex
            (runPass2 d (buildById objs) (runPass1 d objs) objs).techTidToDsIds
            (runPass1 d objs).techniques)[k]? with _ | t'
        · rw [hbk] at hmap
          simp at hmap
        · rw [hbk] at hmap
          simp only [Option.map_some'] at hmap
          have hid' : t'.id = tt.id := by injection hmap
          refine ⟨t', ?_, ?_⟩
          · rw [hEx]
            exact List.mem_iff_getElem?.2 ⟨k, hbk⟩
          · rw [hid', hidt]

/- ---------------------------------------------------------------------
Concrete bundles (the specification's scenario and variants).
--------------------------------------------------------------------- -/

/-- The spec scenario's attack-pattern: active, enterprise, code `T1001`. -/
def apT1001 : Obj := [
  ("type", JVal.str "attack-pattern"),
  ("id", JVal.str "attack-pattern--a1"),
  ("name", JVal.str "Spearphishing"),
  ("x_mitre_domains", JVal.list [JVal.str "enterprise-attack"]),
  ("external_references", JVal.list [JVal.dict
    [("source_name", JVal.str "mitre-attack"), ("external_id", JVal.str "T1001")]]),
  ("kill_chain_phases", JVal.list [JVal.dict
    [("kill_chain_name", JVal.str "mitre-attack"), ("phase_name", JVal.str "initial-access")]])]

/-- The same attack-pattern, marked revoked. -/
def apT1001rev : Obj := ("revoked", JVal.bool true) :: apT1001

/-- In-domain data component `DC`. -/
def dcC1 : Obj := [
  ("type", JVal.str "x-mitre-data-component"),
  ("id", JVal.str "x-mitre-data-component--c1"),
  ("name", JVal.str "Process Creation"),
  ("x_mitre_domains", JVal.list [JVal.str "enterprise-attack"]),
  ("x_mitre_log_sources", JVal.list [JVal.dict [("name", JVal.str "sysmon")]])]

/-- Analytic `AN0002` referencing the data component. -/
def anA1 : Obj := [
  ("type", JVal.str "x-mitre-analytic"),
  ("id", JVal.str "x-mitre-analytic--a1"),
  ("name", JVal.str "Suspicious Child"),
  ("x_mitre_domains", JVal.list [JVal.str "enterprise-attack"]),
  ("external_references", JVal.list [JVal.dict
    [("source_name", JVal.str "mitre-attack"), ("external_id", JVal.str "AN0002")]]),
  ("x_mitre_log_source_references", JVal.list [JVal.dict
    [("x_mitre_data_component_ref", JVal.str "x-mitre-data-component--c1")]])]

/-- Detection strategy `DET0005` owning the analytic. -/
def dsD1 : Obj := [
  ("type", JVal.str "x-mitre-detection-strategy"),
  ("id", JVal.str "x-mitre-detection-strategy--d1"),
  ("name", JVal.str "Strategy Five"),
  ("x_mitre_domains", JVal.list [JVal.str "enterprise-attack"]),
  ("external_references", JVal.list [JVal.dict
    [("source_name", JVal.str "mitre-attack"), ("external_id", JVal.str "DET0005")]]),
  ("x_mitre_analytic_refs", JVal.list [JVal.str "x-mitre-analytic--a1"])]

/-- The `detects` edge `DET0005 → T1001`. -/
def relD1A1 : Obj := [
  ("type", JVal.str "relationship"),
  ("id", JVal.str "relationship--r1"),
  ("relationship_type", JVal.str "detects"),
  ("source_ref", JVal.str "x-mitre-detection-strategy--d1"),
  ("target_ref", JVal.str "attack-pattern--a1")]

/-- The spec's base scenario bundle. -/
def bundleBase : List Obj := [apT1001, dcC1, anA1, dsD1, relD1A1]

/-- The same bundle with the attack-pattern revoked. -/
def bundleRevoked : List Obj := [apT1001rev, dcC1, anA1, dsD1, relD1A1]

/-- C3 witness: in the base scenario `DET0005` is emitted with
    `techniques = ["T1001"]`, so the closure theorem yields an emitted
    technique with id `T1001`. -/
theorem C3_witness :
    ∃ t ∈ (extract "enterprise-attack" bundleBase).techniques, t.id = "T1001" :=
  (C3_referential_closure "enterprise-attack" bundleBase).2
    ⟨"DET0005", "Strategy Five", "", ["T1001"],
      [⟨"AN0002", "Suspicious Child", "", "", ["x-mitre-data-component--c1"]⟩],
      ["x-mitre-data-component--c1"]⟩
    (by
      have h : (extract "enterprise-attack" bundleBase).detectionStrategies
          = [⟨"DET0005", "Strategy Five", "", ["T1001"],
              [⟨"AN0002", "Suspicious Child", "", "", ["x-mitre-data-component--c1"]⟩],
              ["x-mitre-data-component--c1"]⟩] := rfl
      rw [h]
      exact List.mem_singleton.mpr rfl)
    "T1001" (List.mem_singleton.mpr rfl)

/-- C1 counterexample: in the revoked-`T1001` scenario the code still
    emits `DET0005` (it owns one analytic), so `DET0005` is not absent
    from the output, contradicting the claim. -/
theorem C1_counterexample :
    (extract "enterprise-attack" bundleRevoked).detectionStrategies.map DetectionStrategy.id
      = ["DET0005"] ∧
    (extract "enterprise-attack" bundleRevoked).techniques = [] :=
  ⟨rfl, rfl⟩

/-- C1 (amended): with the attack-pattern revoked, `T1001` is absent from
    the output and no cross-reference to it remains (the strategy's
    `techniques` list is empty), but `DET0005` itself is still emitted
    because it owns one analytic. -/
theorem C1_amended_revoked_scenario :
    extract "enterprise-attack" bundleRevoked =
      { assets := []
        dataComponents := [⟨"x-mitre-data-component--c1", "Process Creation", "", "sysmon"⟩]
        detectionStrategies := [⟨"DET0005", "Strategy Five", "", [],
          [⟨"AN0002", "Suspicious Child", "", "", ["x-mitre-data-component--c1"]⟩],
          ["x-mitre-data-component--c1"]⟩]
        techniques := []
        tactics := [] } := rfl

/- ---------------------------------------------------------------------
C2: sorting of the output collections.
--------------------------------------------------------------------- -/

/-- Two active enterprise tactics whose short names arrive out of order. -/
def tacticB : Obj := [
  ("type", JVal.str "x-mitre-tactic"),
  ("id", JVal.str "x-mitre-tactic--b"),
  ("name", JVal.str "B"),
  ("x_mitre_shortname", JVal.str "b"),
  ("x_mitre_domains", JVal.list [JVal.str "enterprise-attack"])]

def tacticA : Obj := [
  ("type", JVal.str "x-mitre-tactic"),
  ("id", JVal.str "x-mitre-tactic--a"),
  ("name", JVal.str "A"),
  ("x_mitre_shortname", JVal.str "a"),
  ("x_mitre_domains", JVal.list [JVal.str "enterprise-attack"])]

def bundleTactics : List Obj := [tacticB, tacticA]

/-- The specification's tie-break recogniser: an alphabetic prefix
    followed by digits. -/
def extCodeLike (s : String) : Bool :=
  !(s.data.takeWhile Char.isAlpha).isEmpty &&
  !(s.data.dropWhile Char.isAlpha).isEmpty &&
  (s.data.dropWhile Char.isAlpha).all Char.isDigit

/-- The specification's uniform ordering rule on identifiers. -/
def specKey (s : String) : Nat × String := if extCodeLike s then (0, s) else (1, s)

def specIdLe (a b : String) : Prop :=
  (specKey a).1 < (specKey b).1 ∨
    ((specKey a).1 = (specKey b).1 ∧ strLe (specKey a).2 (specKey b).2)

instance : DecidableRel specIdLe := fun a b => by
  unfold specIdLe
  infer_instance

/-- C2 counterexample: the tactics collection is emitted in input order
    `["b", "a"]`, which is not sorted under the claimed uniform rule. -/
theorem C2_counterexample :
    (extract "enterprise-attack" bundleTactics).tactics.map Tactic.id = ["b", "a"] ∧
    ¬ List.Sorted specIdLe ((extract "enterprise-attack" bundleTactics).tactics.map Tactic.id) := by
  refine ⟨rfl, ?_⟩
  decide

/-- C2 (amended): only the detectionStrategies collection is sorted before
    emission (ids of the form `DET`+digits first, then the rest, each
    group ordered by raw id); the other four collections are emitted in
    first-pass extraction order. -/
theorem C2_amended (d : String) (objs : List Obj) :
    List.Sorted dsLe (extract d objs).detectionStrategies ∧
    (extract d objs).tactics = (runPass1 d objs).tactics ∧
    (extract d objs).assets = (runPass1 d objs).assets ∧
    (extract d objs).dataComponents = (runPass1 d objs).dataComponents ∧
    (extract d objs).techniques.map Technique.id
      = ((runPass1 d objs).techniques).map Technique.id := by
  refine ⟨?_, rfl, rfl, rfl, ?_⟩
  · rw [extract_detectionStrategies]
    exact List.sorted_insertionSort dsLe _
  · apply List.ext_getElem?
    intro i
    rw [List.getElem?_map, List.getElem?_map, extract_techniques, backfill_map_id]

/-- C4: no DetectionStrategy with both empty `techniques` and empty
    `analytics` is ever emitted, and conversely every side-map candidate
    that resolves to at least one technique or analytic is emitted. -/
theorem C4_nonempty_emission (d : String) (objs : List Obj) :
    (∀ D ∈ (extract d objs).detectionStrategies, D.techniques ≠ [] ∨ D.analytics ≠ []) ∧
    (∀ p ∈ (runPass1 d objs).dsByStix,
      (dsTechIds (runPass1 d objs).techStixToTid
          (runPass2 d (buildById objs) (runPass1 d objs) objs).dsToTechStix p.1 ≠ [] ∨
        analyticsOf (runPass1 d objs).analyticsByStix (runPass1 d objs).dcStixIds p.2 ≠ []) →
      dsRecordOf (runPass1 d objs).techStixToTid
          (runPass2 d (buildById objs) (runPass1 d objs) objs).dsToTechStix
          (runPass1 d objs).analyticsByStix (runPass1 d objs).dcStixIds p.1 p.2
        ∈ (extract d objs).detectionStrategies) := by
  constructor
  · intro D hD
    rw [extract_detectionStrategies, mem_dsSort] at hD
    obtain ⟨p, hp, hc, rfl⟩ := mem_buildDS.1 hD
    rw [Bool.and_eq_true] at hc
    by_cases ha : (dsTechIds (runPass1 d objs).techStixToTid
        (runPass2 d (buildById objs) (runPass1 d objs) objs).dsToTechStix p.1).isEmpty = true
    · right
      intro hnil
      exact hc ⟨ha, List.isEmpty_iff.2 hnil⟩
    · left
      intro hnil
      have hl : dsTechIds (runPass1 d objs).techStixToTid
          (runPass2 d (buildById objs) (runPass1 d objs) objs).dsToTechStix p.1 ≠ [] := by
        intro h
        exact ha (List.isEmpty_iff.2 h)
      exact pySortedSet_ne_nil hl hnil
  · intro p hp hne
    rw [extract_detectionStrategies, mem_dsSort]
    apply mem_buildDS.2
    refine ⟨p, hp, ?_, rfl⟩
    rw [Bool.and_eq_true]
    rintro ⟨ha, hb⟩
    rcases hne with h | h
    · exact h (List.isEmpty_iff.1 ha)
    · exact h (List.isEmpty_iff.1 hb)

/-- C4 witness: the scenario strategy is emitted, and has a non-empty
    `techniques` list or a non-empty `analytics` list. -/
theorem C4_witness :
    (⟨"DET0005", "Strategy Five", "", ["T1001"],
      [⟨"AN0002", "Suspicious Child", "", "", ["x-mitre-data-component--c1"]⟩],
      ["x-mitre-data-component--c1"]⟩ : DetectionStrategy).techniques ≠ [] ∨
    (⟨"DET0005", "Strategy Five", "", ["T1001"],
      [⟨"AN0002", "Suspicious Child", "", "", ["x-mitre-data-component--c1"]⟩],
      ["x-mitre-data-component--c1"]⟩ : DetectionStrategy).analytics ≠ [] :=
  (C4_nonempty_emission "enterprise-attack" bundleBase).1 _
    (by
      have h : (extract "enterprise-attack" bundleBase).detectionStrategies
          = [⟨"DET0005", "Strategy Five", "", ["T1001"],
              [⟨"AN0002", "Suspicious Child", "", "", ["x-mitre-data-component--c1"]⟩],
              ["x-mitre-data-component--c1"]⟩] := rfl
      rw [h]
      exact List.mem_singleton.mpr rfl)

/-- C5: for every emitted DetectionStrategy, `dataComponentRefs` is the
    sorted deduplicated union of the nested analytics' `dataComponents`. -/
theorem C5_dataComponentRefs (d : String) (objs : List Obj) :
    ∀ D ∈ (extract d objs).detectionStrategies,
      D.dataComponentRefs = sortedDedupUnion (D.analytics.map Analytic.dataComponents) := by
  intro D hD
  rw [extract_detectionStrategies, mem_dsSort] at hD
  obtain ⟨p, hp, hc, rfl⟩ := mem_buildDS.1 hD
  exact dsDcRefs_eq_sortedDedupUnion _

/-- C5 witness: applied to the scenario strategy. -/
theorem C5_witness :
    (⟨"DET0005", "Strategy Five", "", ["T1001"],
      [⟨"AN0002", "Suspicious Child", "", "", ["x-mitre-data-component--c1"]⟩],
      ["x-mitre-data-component--c1"]⟩ : DetectionStrategy).dataComponentRefs
      = sortedDedupUnion ((⟨"DET0005", "Strategy Five", "", ["T1001"],
          [⟨"AN0002", "Suspicious Child", "", "", ["x-mitre-data-component--c1"]⟩],
          ["x-mitre-data-component--c1"]⟩ : DetectionStrategy).analytics.map
            Analytic.dataComponents) :=
  C5_dataComponentRefs "enterprise-attack" bundleBase _
    (by
      have h : (extract "enterprise-attack" bundleBase).detectionStrategies
          = [⟨"DET0005", "Strategy Five", "", ["T1001"],
              [⟨"AN0002", "Suspicious Child", "", "", ["x-mitre-data-component--c1"]⟩],
              ["x-mitre-data-component--c1"]⟩] := rfl
      rw [h]
      exact List.mem_singleton.mpr rfl)

theorem analyticsOf_pseudocode {abs : List (String × Obj)} {dcids : List String}
    {dsObj : Obj} {a : Analytic} (ha : a ∈ analyticsOf abs dcids dsObj) :
    a.pseudocode = "" := by
  rw [analyticsOf] at ha
  split at ha
  · obtain ⟨r, _, hf⟩ := List.mem_filterMap.1 ha
    cases r with
    | str s =>
      have hf' : (dictGet abs s).map (analyticRecord dcids s) = some a := hf
      obtain ⟨o, _, heq⟩ := Option.map_eq_some'.1 hf'
      rw [← heq]
      rfl
    | bool b => cases hf
    | num n => cases hf
    | list l => cases hf
    | dict m => cases hf
    | null => cases hf
  · cases ha

/-- C8: every nested analytic of every emitted DetectionStrategy has the
    literal empty string as its pseudocode. -/
theorem C8_pseudocode_empty (d : String) (objs : List Obj) :
    ∀ D ∈ (extract d objs).detectionStrategies, ∀ a ∈ D.analytics, a.pseudocode = "" := by
  intro D hD a ha
  rw [extract_detectionStrategies, mem_dsSort] at hD
  obtain ⟨p, hp, hc, rfl⟩ := mem_buildDS.1 hD
  exact analyticsOf_pseudocode ha

/-- C8 witness: applied to the scenario's nested analytic. -/
theorem C8_witness :
    (⟨"AN0002", "Suspicious Child", "", "", ["x-mitre-data-component--c1"]⟩
      : Analytic).pseudocode = "" :=
  C8_pseudocode_empty "enterprise-attack" bundleBase _
    (by
      have h : (extract "enterprise-attack" bundleBase).detectionStrategies
          = [⟨"DET0005", "Strategy Five", "", ["T1001"],
              [⟨"AN0002", "Suspicious Child", "", "", ["x-mitre-data-component--c1"]⟩],
              ["x-mitre-data-component--c1"]⟩] := rfl
      rw [h]
      exact List.mem_singleton.mpr rfl)
    _ (List.mem_singleton.mpr rfl)

/-- C10: an analytic reference that does not resolve in the analytic
    side-map is silently skipped: the nested-analytics list, the derived
    `dataComponentRefs`, and the emptiness test that drives the emission
    rule are the same as if the reference were absent. -/
theorem C10_unresolved_refs (abs : List (String × Obj)) (dcids : List String)
    (aStix : String) (r1 r2 : List JVal) (h : dictGet abs aStix = none) :
    analyticsOfRefs abs dcids (r1 ++ JVal.str aStix :: r2)
        = analyticsOfRefs abs dcids (r1 ++ r2) ∧
    dsDcRefs (analyticsOfRefs abs dcids (r1 ++ JVal.str aStix :: r2))
        = dsDcRefs (analyticsOfRefs abs dcids (r1 ++ r2)) ∧
    (analyticsOfRefs abs dcids (r1 ++ JVal.str aStix :: r2)).isEmpty
        = (analyticsOfRefs abs dcids (r1 ++ r2)).isEmpty := by
  have h1 : analyticsOfRefs abs dcids (r1 ++ JVal.str aStix :: r2)
      = analyticsOfRefs abs dcids (r1 ++ r2) := by
    rw [analyticsOfRefs, analyticsOfRefs, List.filterMap_append, List.filterMap_append,
      List.filterMap_cons]
    simp [h]
  exact ⟨h1, by rw [h1], by rw [h1]⟩

/-- C10 witness: a concrete unresolvable reference inside a reference
    list changes nothing. -/
theorem C10_witness :
    analyticsOfRefs [] ["x-mitre-data-component--c1"]
        ([] ++ JVal.str "x-mitre-analytic--zz" :: [JVal.str "x-mitre-analytic--a1"])
      = analyticsOfRefs [] ["x-mitre-data-component--c1"]
          ([] ++ [JVal.str "x-mitre-analytic--a1"]) :=
  (C10_unresolved_refs [] ["x-mitre-data-component--c1"] "x-mitre-analytic--zz"
    [] [JVal.str "x-mitre-analytic--a1"] rfl).1

/- ---------------------------------------------------------------------
C6: recognized edge shapes of the two relationship resolvers.
--------------------------------------------------------------------- -/

/-- The edge test of extract_mitre_data.py (lines 256-269): a
    `relationship` of kind `detects` shaped
    detection-strategy → attack-pattern (shape (a)). -/
def detectsShapeA (o : Obj) : Bool :=
  isStrVal (jget o "type") "relationship" &&
  isStrVal (jget o "relationship_type") "detects" &&
  (match jget o "source_ref", jget o "target_ref" with
   | some (JVal.str src), some (JVal.str tgt) =>
      strStartsWith src "x-mitre-detection-strategy--" &&
      strStartsWith tgt "attack-pattern--"
   | _, _ => false)

/-- A relationship object as surfaced by the mitreattack library in
    extract_mitre_data_new.py; these four attributes are guaranteed
    present on every parsed relationship. -/
structure StixRel where
  relationship_type : String
  source_ref : String
  target_ref : String
  description : String
deriving DecidableEq

/-- The edge test of extract_mitre_data_new.py (lines 98-99): kind
    `detects` shaped data-component → attack-pattern (shape (b)). -/
def detectsShapeB (r : StixRel) : Bool :=
  r.relationship_type = "detects" &&
  strStartsWith r.source_ref "x-mitre-data-component--" &&
  strStartsWith r.target_ref "attack-pattern--"

/-- One iteration of the _new script's relationship scan (lines 97-106):
    a matching edge appends `(source, description)` under the target. -/
def relStepNew (m : List (String × List (String × String))) (r : StixRel) :
    List (String × List (String × String)) :=
  if r.relationship_type = "detects" then
    if strStartsWith r.source_ref "x-mitre-data-component--" &&
       strStartsWith r.target_ref "attack-pattern--" then
      dictAppend m r.target_ref (r.source_ref, r.description)
    else m
  else m

/-- A shape-(b) `detects` edge between the scenario's data component and
    attack pattern. -/
def relShapeBedge : Obj := [
  ("type", JVal.str "relationship"),
  ("id", JVal.str "relationship--r2"),
  ("relationship_type", JVal.str "detects"),
  ("source_ref", JVal.str "x-mitre-data-component--c1"),
  ("target_ref", JVal.str "attack-pattern--a1")]

/-- A bundle whose only detects edge has shape (b), with both endpoints
    active and in-domain. -/
def bundleShapeB : List Obj := [apT1001, dcC1, relShapeBedge]

/-- C6 counterexample: `extract_mitre_data.py` does not retain a
    `detects` edge of shape (b) (data-component → attack-pattern): with
    such an edge present and both endpoints resolvable and in-domain, the
    extraction produces no detection strategy and back-fills nothing, so
    the single resolver does not support both recognized shapes. -/
theorem C6_counterexample :
    isStrVal (jget relShapeBedge "relationship_type") "detects" = true ∧
    jget relShapeBedge "source_ref" = some (JVal.str "x-mitre-data-component--c1") ∧
    jget relShapeBedge "target_ref" = some (JVal.str "attack-pattern--a1") ∧
    strStartsWith "x-mitre-data-component--c1" "x-mitre-data-component--" = true ∧
    strStartsWith "attack-pattern--a1" "attack-pattern--" = true ∧
    (extract "enterprise-attack" bundleShapeB).techniques.map
        Technique.detectionStrategyIds = [[]] ∧
    (extract "enterprise-attack" bundleShapeB).detectionStrategies = [] :=
  ⟨rfl, rfl, rfl, rfl, rfl, rfl, rfl⟩

/-- C6 (amended): each script's resolver retains exactly the `detects`
    edges matching its single recognized shape — shape (a) for
    extract_mitre_data.py and shape (b) for extract_mitre_data_new.py; an
    edge failing the test is silently ignored (the scan state is
    unchanged, never an error). -/
theorem C6_amended :
    (∀ (d : String) (byId : List (String × Obj)) (p1 : Pass1State)
        (st : Pass2State) (o : Obj),
      detectsShapeA o = false → pass2Step d byId p1 st o = st) ∧
    (∀ (m : List (String × List (String × String))) (r : StixRel),
      detectsShapeB r = false → relStepNew m r = m) := by
  constructor
  · intro d byId p1 st o h
    unfold pass2Step
    split
    · rename_i t heqt
      split_ifs with hrel
      · split
        · rename_i rt heqrt
          split_ifs with hdet
          · split
            · rename_i src tgt heqsrc heqtgt
              split_ifs with hpfx
              · exfalso
                rw [detectsShapeA, heqt, heqrt, heqsrc, heqtgt] at h
                subst hrel
                subst hdet
                simp [isStrVal, hpfx] at h
              · rfl
            · rfl
          · rfl
        · rfl
      · rfl
    · rfl
  · intro m r h
    unfold relStepNew
    split_ifs with h1 h2
    · exfalso
      rw [detectsShapeB] at h
      simp [h1, h2] at h
    · rfl
    · rfl

/-- C6 witness: a non-matching edge leaves the old resolver's state and
    the new resolver's map unchanged. -/
theorem C6_witness :
    detectsShapeA tacticB = false ∧
    pass2Step "enterprise-attack" [] pass1Init pass2Init tacticB = pass2Init ∧
    detectsShapeB ⟨"uses", "x", "y", ""⟩ = false ∧
    relStepNew [] ⟨"uses", "x", "y", ""⟩ = [] :=
  ⟨rfl, C6_amended.1 "enterprise-attack" [] pass1Init pass2Init tacticB rfl,
    rfl, C6_amended.2 [] ⟨"uses", "x", "y", ""⟩ rfl⟩

/- ---------------------------------------------------------------------
C7: defaults for platforms and is-subtechnique.
--------------------------------------------------------------------- -/

/-- Does the optional value hold a JSON list?  (`isinstance(x, list)`.) -/
def isListVal : Option JVal → Bool
  | some (JVal.list _) => true
  | _ => false

/-- Does the optional value hold a JSON boolean?  (`isinstance(x, bool)`.) -/
def isBoolVal : Option JVal → Bool
  | some (JVal.bool _) => true
  | _ => false

/-- The fields of extract_mitre_data_new.py's technique record that are
    read by plain attribute access (lines 156-157): the raw values pass
    through unchanged, and a missing attribute raises `AttributeError` in
    Python, modelled as `none`. -/
structure TechniqueNewFields where
  platforms : JVal
  isSubtechnique : JVal

def techFieldsNew (tech : Obj) : Option TechniqueNewFields :=
  match jget tech "x_mitre_platforms", jget tech "x_mitre_is_subtechnique" with
  | some pl, some sub => some { platforms := pl, isSubtechnique := sub }
  | _, _ => none

/-- A technique object whose `x_mitre_platforms` has the wrong type. -/
def tNewWrongPlatforms : Obj :=
  [("x_mitre_platforms", JVal.str "Windows"),
   ("x_mitre_is_subtechnique", JVal.bool false)]

/-- A technique object with no `x_mitre_platforms` at all. -/
def tNewAbsentPlatforms : Obj := [("x_mitre_is_subtechnique", JVal.bool false)]

/-- C7 counterexample: extract_mitre_data_new.py passes a wrong-typed
    `x_mitre_platforms` through unchanged instead of defaulting it to the
    empty sequence, and errors (rather than defaulting) when the field is
    absent. -/
theorem C7_counterexample :
    techFieldsNew tNewWrongPlatforms
      = some { platforms := JVal.str "Windows", isSubtechnique := JVal.bool false } ∧
    JVal.str "Windows" ≠ JVal.list [] ∧
    techFieldsNew tNewAbsentPlatforms = none :=
  ⟨rfl, fun h => JVal.noConfusion h, rfl⟩

/-- C7 (amended): in extract_mitre_data.py the technique extractor never
    raises: when `x_mitre_platforms` is absent or not a list the record's
    `platforms` is `[]`, and when `x_mitre_is_subtechnique` is absent or
    not a boolean `isSubtechnique` is `false`. -/
theorem C7_defaults (o : Obj) (tid : String) :
    (isListVal (jget o "x_mitre_platforms") = false →
      (techniqueRecord o tid).platforms = []) ∧
    (isBoolVal (jget o "x_mitre_is_subtechnique") = false →
      (techniqueRecord o tid).isSubtechnique = false) := by
  constructor
  · intro h
    have hp : (techniqueRecord o tid).platforms
        = (match jget o "x_mitre_platforms" with
           | some (JVal.list l) => l
           | _ => []) := rfl
    rw [hp]
    rcases hj : jget o "x_mitre_platforms" with _ | v
    · rfl
    · cases v with
      | list l =>
        rw [hj] at h
        simp [isListVal] at h
      | str s => rfl
      | bool b => rfl
      | num n => rfl
      | dict m => rfl
      | null => rfl
  · intro h
    have hp : (techniqueRecord o tid).isSubtechnique
        = (match jget o "x_mitre_is_subtechnique" with
           | some (JVal.bool b) => b
           | _ => false) := rfl
    rw [hp]
    rcases hj : jget o "x_mitre_is_subtechnique" with _ | v
    · rfl
    · cases v with
      | bool b =>
        rw [hj] at h
        simp [isBoolVal] at h
      | str s => rfl
      | list l => rfl
      | num n => rfl
      | dict m => rfl
      | null => rfl

/-- C7 witness: a technique object without either optional field gets
    both defaults. -/
theorem C7_witness :
    isListVal (jget [("type", JVal.str "attack-pattern")] "x_mitre_platforms") = false ∧
    (techniqueRecord [("type", JVal.str "attack-pattern")] "T1234").platforms = [] :=
  ⟨rfl, (C7_defaults [("type", JVal.str "attack-pattern")] "T1234").1 rfl⟩

/- ---------------------------------------------------------------------
C9: duplicate technique codes and the back-fill target.
--------------------------------------------------------------------- -/

/-- A second accepted attack-pattern carrying the same code `T1001`. -/
def apT1001dup : Obj := [
  ("type", JVal.str "attack-pattern"),
  ("id", JVal.str "attack-pattern--a2"),
  ("name", JVal.str "Spearphishing Duplicate"),
  ("x_mitre_domains", JVal.list [JVal.str "enterprise-attack"]),
  ("external_references", JVal.list [JVal.dict
    [("source_name", JVal.str "mitre-attack"), ("external_id", JVal.str "T1001")]])]

/-- Two accepted techniques with code `T1001`; the detects edge targets
    the first one. -/
def bundleDup : List Obj := [apT1001, apT1001dup, dsD1, relD1A1]

/-- C9: each accepted attack-pattern yields its own emitted record (ids
    in extraction order, duplicates included), and whenever a later
    emitted record carries the same id, the earlier record's
    `detectionStrategyIds` stays empty — the back-fill writes only into
    the most recently extracted record for a code. -/
theorem C9_duplicate_tids (d : String) (objs : List Obj) :
    ((extract d objs).techniques.map Technique.id
      = (objs.filterMap (acceptTech d)).map Technique.id) ∧
    (∀ (i j : Nat) (ti tj : Technique),
      (extract d objs).techniques[i]? = some ti →
      (extract d objs).techniques[j]? = some tj →
      i < j → ti.id = tj.id →
      ti.detectionStrategyIds = []) := by
  have hp1 := p1Inv_run d objs
  have hEx := extract_techniques d objs
  constructor
  · rw [← runPass1_techniques]
    apply List.ext_getElem?
    intro i
    rw [List.getElem?_map, List.getElem?_map, hEx, backfill_map_id]
  · intro i j ti tj hi hj hij hid
    rw [hEx] at hi hj
    have hunwr : ∀ k, dictGet (runPass1 d objs).tidToTechIndex k ≠ some i := by
      intro k hk
      obtain ⟨t0, hg0, hid0, hlater⟩ := hp1.idx_last (k, i) (dictGet_mem hk)
      have hmapj := backfill_map_id (runPass1 d objs).tidToTechIndex
        (runPass2 d (buildById objs) (runPass1 d objs) objs).techTidToDsIds
        (runPass1 d objs).techniques j
      rw [hj] at hmapj
      rcases hpj : (runPass1 d objs).techniques[j]? with _ | t1
      · rw [hpj] at hmapj
        simp at hmapj
      · rw [hpj] at hmapj
        simp only [Option.map_some'] at hmapj
        have htj1 : tj.id = t1.id := by injection hmapj
        have hmapi := backfill_map_id (runPass1 d objs).tidToTechIndex
          (runPass2 d (buildById objs) (runPass1 d objs) objs).techTidToDsIds
          (runPass1 d objs).techniques i
        rw [hi, hg0] at hmapi
        simp only [Option.map_some'] at hmapi
        have hti0 : ti.id = t0.id := by injection hmapi
        refine hlater j t1 hij hpj ?_
        rw [← htj1, ← hid, hti0, hid0]
    have hsame := backfill_unwritten (runPass1 d objs).tidToTechIndex
      (runPass2 d (buildById objs) (runPass1 d objs) objs).techTidToDsIds
      (runPass1 d objs).techniques i hunwr
    rw [hi] at hsame
    exact hp1.dsIds_nil ti (List.mem_iff_getElem?.2 ⟨i, hsame.symm⟩)

/-- C9 witness: in the duplicate bundle the first `T1001` record keeps an
    empty strategy list while the later one receives the back-fill, even
    though the detects edge targeted the first object. -/
theorem C9_witness :
    (extract "enterprise-attack" bundleDup).techniques.map Technique.detectionStrategyIds
        = [[], ["DET0005"]] ∧
    (⟨"T1001", "Spearphishing", "", ["initial-access"], [], [], false⟩
        : Technique).detectionStrategyIds = [] :=
  ⟨rfl, (C9_duplicate_tids "enterprise-attack" bundleDup).2 0 1
    ⟨"T1001", "Spearphishing", "", ["initial-access"], [], [], false⟩
    ⟨"T1001", "Spearphishing Duplicate", "", [], ["DET0005"], [], false⟩
    rfl rfl (by omega) rfl⟩
